import Mathlib

/-!
Verification of the BVH motion-capture ingestion core: the line-oriented
hierarchy/motion parser (`process_bvh_lines`), the channel-index builder,
the forward-kinematics transform composition, root reassignment and the
query accessors, shallowly embedded from the Python sources
`src/scripts/BVH/bvh_to_h5.py` and `src/data/processed/Skeleton.py`.
Numeric values are modelled as rationals; trigonometric functions and the
constant pi are abstract parameters, so every statement about transform
composition holds for any interpretation of them.
-/

namespace BVH

/-! ### String utilities mirroring Python `str.strip`, `str.split`, `str.startswith`, `in` -/

/-- Whitespace characters recognised by Python's default `strip`/`split`. -/
def isWs (c : Char) : Bool :=
  c = ' ' || c = '\t' || c = '\n' || c = '\r' || c = '\x0b' || c = '\x0c'

/-- Python `str.strip()` on the character list. -/
def trimChars (l : List Char) : List Char :=
  ((l.dropWhile isWs).reverse.dropWhile isWs).reverse

/-- Python `str.strip()`. -/
def strTrim (s : String) : String := ⟨trimChars s.data⟩

/-- Python `str.startswith(p)`. -/
def strStartsWith (s p : String) : Bool := p.data.isPrefixOf s.data

/-- Helper for Python's whitespace `str.split()`: accumulate the current token. -/
def splitWsAux : List Char → List Char → List String
  | [], acc => if acc.isEmpty then [] else [⟨acc.reverse⟩]
  | c :: cs, acc =>
    if isWs c then
      if acc.isEmpty then splitWsAux cs []
      else (⟨acc.reverse⟩ : String) :: splitWsAux cs []
    else splitWsAux cs (c :: acc)

/-- Python `str.split()` with no argument: split on runs of whitespace. -/
def splitWs (s : String) : List String := splitWsAux s.data []

/-- Helper deciding whether `needle` occurs as a contiguous sublist of `hay`,
which is Python's `needle in hay` on strings. -/
def hasSub (hay needle : List Char) : Bool :=
  needle.isPrefixOf hay ||
    match hay with
    | [] => false
    | _ :: t => hasSub t needle

/-- Python `"_End" in name`, the end-site test used throughout `Skeleton.py`. -/
def isEndSite (name : String) : Bool := hasSub name.data "_End".data

/-! ### Decimal parsing mirroring Python `float(...)` on plain decimal literals -/

/-- Value of a decimal digit character, if it is one. -/
def digitVal (c : Char) : Option Nat :=
  if '0' ≤ c ∧ c ≤ '9' then some (c.toNat - '0'.toNat) else none

/-- Parse a (possibly empty) run of decimal digits, returning the value and
the number of digits consumed; fails on any non-digit. -/
def parseDigits : List Char → Option (Nat × Nat)
  | [] => some (0, 0)
  | c :: cs => do
    let d ← digitVal c
    let (v, n) ← parseDigits cs
    pure (d * 10 ^ n + v, n + 1)

/-- Parse an optionally signed decimal literal (`-12`, `3.5`, `10.`, `.25`)
into the exact rational `sign · (intPart + fracPart / 10^fracDigits)` it
denotes, as Python `float` does on the literals this format uses (built with
`mkRat` on the common denominator). Fails (as `float` raises `ValueError`)
on anything else. -/
def parseFloat (s : String) : Option ℚ := do
  let (sign, body) : Int × List Char :=
    match s.data with
    | '-' :: rest => (-1, rest)
    | '+' :: rest => (1, rest)
    | l => (1, l)
  let intChars := body.takeWhile (fun ch => ch ≠ '.')
  let rest := body.dropWhile (fun ch => ch ≠ '.')
  let (iv, icnt) ← parseDigits intChars
  match rest with
  | [] =>
    if icnt = 0 then none
    else pure (mkRat (sign * iv) 1)
  | _ :: fracChars => do
    let (fv, fcnt) ← parseDigits fracChars
    if icnt = 0 ∧ fcnt = 0 then none
    else pure (mkRat (sign * (iv * 10 ^ fcnt + fv)) (10 ^ fcnt))

/-- Python `[float(v) for v in tokens]`. -/
def parseFloats (ts : List String) : Option (List ℚ) := ts.mapM parseFloat

/-! ### Parser embedding of `process_bvh_lines` in `src/scripts/BVH/bvh_to_h5.py` -/

/-- Joint record built by the parser: name, parent back-reference, offset
(`None` until an `OFFSET` line fills it in). -/
structure PJoint (F : Type) where
  name : String
  parent : Option String
  offset : Option (List F)
deriving DecidableEq

/-- Mutable state of the line loop in `process_bvh_lines`. The Python joint
stack grows at the right; here the head of `joint_stack` is the top. -/
structure ParseState where
  hierarchy : List (PJoint ℚ)
  motion : List (List ℚ)
  channels : List String
  joint_stack : List String
  in_motion : Bool
  order : List String
deriving DecidableEq

/-- Initial parser state. -/
def initParseState : ParseState :=
  { hierarchy := [], motion := [], channels := [], joint_stack := [],
    in_motion := false, order := [] }

/-- Set the `offset` field of the last appended joint (`hierarchy[-1]`). -/
def setLastOffset : List (PJoint ℚ) → List ℚ → List (PJoint ℚ)
  | [], _ => []
  | [j], v => [{ j with offset := some v }]
  | j :: rest, v => j :: setLastOffset rest v

/-- One iteration of the `for line in lines` loop of `process_bvh_lines`,
with each uncaught Python exception modelled as an `Except.error`. -/
def processLine (st : ParseState) (line : String) : Except String ParseState :=
  if line = "" then .ok st else
  let line := strTrim line
  if st.in_motion = false then
    if strStartsWith line "ROOT" || strStartsWith line "JOINT" then
      match (splitWs line).get? 1 with
      | none => .error "IndexError: list index out of range"
      | some name =>
        .ok { st with
              hierarchy := st.hierarchy ++
                [{ name := name, parent := st.joint_stack.head?, offset := none }],
              order := st.order ++ [name],
              joint_stack := name :: st.joint_stack }
    else if strStartsWith line "End Site" then
      match st.joint_stack.head? with
      | none => .error "IndexError: list index out of range"
      | some top =>
        .ok { st with
              hierarchy := st.hierarchy ++
                [{ name := top ++ "_End", parent := some top, offset := none }],
              joint_stack := (top ++ "_End") :: st.joint_stack }
    else if strStartsWith line "OFFSET" then
      match parseFloats ((splitWs line).drop 1) with
      | none => .error "ValueError: could not convert string to float"
      | some vals =>
        if st.hierarchy.isEmpty then .error "IndexError: list index out of range"
        else .ok { st with hierarchy := setLastOffset st.hierarchy vals }
    else if strStartsWith line "CHANNELS" then
      .ok { st with channels := st.channels ++ (splitWs line).drop 2 }
    else if strStartsWith line "\x7d" then
      .ok { st with joint_stack := st.joint_stack.tail }
    else if strStartsWith line "MOTION" then
      .ok { st with in_motion := true }
    else .ok st
  else
    if strStartsWith line "Frames:" || strStartsWith line "Frame Time:" then .ok st
    else
      match parseFloats (splitWs line) with
      | none => .error "ValueError: could not convert string to float"
      | some vals => .ok { st with motion := st.motion ++ [vals] }

/-- The four artifacts a successful parse returns, which are also exactly the
fields the `Skeleton` constructor consumes (the HDF5 container round-trips
them unchanged). -/
structure SkeletonData (F : Type) where
  hierarchy : List (PJoint F)
  motion : List (List F)
  channels : List String
  order : List String
deriving DecidableEq

/-- The whole of `process_bvh_lines`: the line loop followed by the single
post-scan frame-length consistency check. -/
def process_bvh_lines (lines : List String) : Except String (SkeletonData ℚ) := do
  let st ← lines.foldlM processLine initParseState
  if ((st.motion.map (fun r => r.length)).dedup).length > 1 then
    .error "ValueError: Inconsistent frame lengths detected"
  else
    .ok { hierarchy := st.hierarchy, motion := st.motion,
          channels := st.channels, order := st.order }

/-! ### Association-list model of Python dictionaries -/

/-- Lookup in an insertion-ordered association list (Python `d[k]` / `k in d`). -/
def alookup {α : Type} : List (String × α) → String → Option α
  | [], _ => none
  | p :: rest, k => if p.1 = k then some p.2 else alookup rest k

/-- Python `d[k] = v`: overwrite in place when the key exists (keeping its
position, as Python dicts do), otherwise append at the end. -/
def dictInsert {α : Type} (m : List (String × α)) (k : String) (v : α) :
    List (String × α) :=
  if (alookup m k).isSome then
    m.map (fun p => if p.1 = k then (k, v) else p)
  else m ++ [(k, v)]

/-- Python `{p[0]: p[1] for p in l}`: build a dict by repeated insertion. -/
def pyDict {α : Type} (l : List (String × α)) : List (String × α) :=
  l.foldl (fun m p => dictInsert m p.1 p.2) []


/-! ### Channel Index Builder: `Skeleton._build_joint_channel_map` -/

/-- The fixed list the Python source iterates for each joint, in its literal
textual order (position triple, then Y-, X-, Z-rotation). -/
def jointKinds : List String :=
  ["Xposition", "Yposition", "Zposition", "Yrotation", "Xrotation", "Zrotation"]

/-- The inner loop of `_build_joint_channel_map`: walk a list of expected
channel kinds against the declared channel sequence from a cursor, recording
a column index and advancing only when the sequence entry at the cursor
equals the expected kind. -/
def matchKinds (channels : List String) : List String → Nat → List (String × Nat) × Nat
  | [], cur => ([], cur)
  | k :: ks, cur =>
    if channels.get? cur = some k then
      let rest := matchKinds channels ks (cur + 1)
      ((k, cur) :: rest.1, rest.2)
    else matchKinds channels ks cur

/-- One iteration of the order-sequence loop of
`Skeleton._build_joint_channel_map`: skip end-site names, otherwise register
the joint's sub-map from the running cursor and advance it. -/
def bjcmStep (channels : List String)
    (acc : List (String × List (String × Nat)) × Nat) (joint : String) :
    List (String × List (String × Nat)) × Nat :=
  if isEndSite joint then acc
  else
    let step := matchKinds channels jointKinds acc.2
    (dictInsert acc.1 joint step.1, step.2)

/-- `Skeleton._build_joint_channel_map`: walk the order sequence with one
running cursor, skipping end-site names, and match each non-end-site joint's
kinds in the fixed `jointKinds` order. -/
def build_joint_channel_map (order : List String) (channels : List String) :
    List (String × List (String × Nat)) :=
  (order.foldl (bjcmStep channels) ([], 0)).1

/-- Modelled from the spec (§4.2): the six canonical channel kinds in the
order in which they first appear in the skeleton's declared channel sequence
(kinds that never appear keep their canonical relative order at the end). -/
def declaredKindOrder (channels : List String) : List String :=
  let occurring := channels.foldl
    (fun acc c => if jointKinds.contains c ∧ ¬ acc.contains c then acc ++ [c] else acc) []
  occurring ++ jointKinds.filter (fun k => ¬ occurring.contains k)

/-- Walk the order sequence with a running cursor, matching each non-end-site
joint against a fixed list of expected channel kinds; the recursive shape in
which the spec narrates the builder. -/
def builderWalk (channels : List String) (kinds : List String) :
    List String → Nat → List (String × List (String × Nat))
  | [], _ => []
  | j :: rest, cur =>
    if isEndSite j then builderWalk channels kinds rest cur
    else
      let step := matchKinds channels kinds cur
      (j, step.1) :: builderWalk channels kinds rest step.2

/-- Modelled from the spec (§4.2): the channel index builder as the spec
describes it — for each non-end-site joint, match the six kinds in the order
in which they appear in the declared channel sequence. -/
def build_joint_channel_map_declared (order : List String) (channels : List String) :
    List (String × List (String × Nat)) :=
  builderWalk channels (declaredKindOrder channels) order 0

/-- The amended description of the builder: the same walk, but the six kinds
are matched in the fixed canonical-source order `jointKinds`. -/
def build_joint_channel_map_canonical (order : List String) (channels : List String) :
    List (String × List (String × Nat)) :=
  builderWalk channels jointKinds order 0

/-! ### Transform matrices: `rotation_matrix_yxz` and `transformation_matrix_yxz` -/

variable {F : Type} [Field F]

/-- Python `np.radians`: degrees to radians, with the constant pi abstract. -/
def radians (piv θ : F) : F := θ * piv / 180

/-- The `R_y` matrix literal of `rotation_matrix_yxz` (angle already in radians). -/
def rotYmat (c s : F → F) (t : F) : Matrix (Fin 3) (Fin 3) F :=
  !![c t, 0, s t; 0, 1, 0; -(s t), 0, c t]

/-- The `R_x` matrix literal of `rotation_matrix_yxz` (angle already in radians). -/
def rotXmat (c s : F → F) (t : F) : Matrix (Fin 3) (Fin 3) F :=
  !![1, 0, 0; 0, c t, -(s t); 0, s t, c t]

/-- The `R_z` matrix literal of `rotation_matrix_yxz` (angle already in radians). -/
def rotZmat (c s : F → F) (t : F) : Matrix (Fin 3) (Fin 3) F :=
  !![c t, -(s t), 0; s t, c t, 0; 0, 0, 1]

/-- `Skeleton.rotation_matrix_yxz`: convert the three degree angles to radians,
then combine the axis rotations as `R_y @ R_x @ R_z`. -/
def rotation_matrix_yxz (piv : F) (c s : F → F) (ty tx tz : F) :
    Matrix (Fin 3) (Fin 3) F :=
  rotYmat c s (radians piv ty) * rotXmat c s (radians piv tx) *
    rotZmat c s (radians piv tz)

/-- `Skeleton.transformation_matrix_yxz`: start from the identity, write the
3×3 rotation into the upper-left block and the translation into the last
column. -/
def transformation_matrix_yxz (piv : F) (c s : F → F) (ty tx tz : F)
    (tr : Fin 3 → F) : Matrix (Fin 4) (Fin 4) F :=
  let R := rotation_matrix_yxz piv c s ty tx tz
  !![R 0 0, R 0 1, R 0 2, tr 0;
     R 1 0, R 1 1, R 1 2, tr 1;
     R 2 0, R 2 1, R 2 2, tr 2;
     0, 0, 0, 1]

/-- Homogeneous pure-translation matrix, the `translation(x, y, z)` of the
specified decomposition. -/
def translation4 (tr : Fin 3 → F) : Matrix (Fin 4) (Fin 4) F :=
  !![1, 0, 0, tr 0;
     0, 1, 0, tr 1;
     0, 0, 1, tr 2;
     0, 0, 0, 1]

/-- Homogeneous extension of a 3×3 rotation block (no translation). -/
def homog4 (R : Matrix (Fin 3) (Fin 3) F) : Matrix (Fin 4) (Fin 4) F :=
  !![R 0 0, R 0 1, R 0 2, 0;
     R 1 0, R 1 1, R 1 2, 0;
     R 2 0, R 2 1, R 2 2, 0;
     0, 0, 0, 1]

/-! ### The Skeleton model (`Skeleton.__init__` and its helpers) -/

/-- Per-joint `world_motion` record: the six per-frame channel-value lists
that `_update_hierarchy_with_motion` attaches to each joint. -/
structure WM (F : Type) where
  X : List F
  Y : List F
  Z : List F
  Ry : List F
  Rx : List F
  Rz : List F
deriving DecidableEq

/-- The empty `world_motion` record each joint starts from. -/
def emptyWM : WM F := ⟨[], [], [], [], [], []⟩

/-- Turn a fallible Python lookup or index into an `Except`. -/
def getOr {α : Type} (o : Option α) (msg : String) : Except String α :=
  match o with
  | some a => .ok a
  | none => .error msg

/-- The body of the frame loop of `_update_hierarchy_with_motion` for one
joint: on a non-end-site joint, read the six channel indices (`KeyError` when
absent) and the six motion values (`IndexError` when out of range) and append
them to the per-joint lists; end-site joints are skipped. -/
def wmStep (jcm : List (String × List (String × Nat))) (name : String)
    (wm : WM F) (row : List F) : Except String (WM F) :=
  if isEndSite name then .ok wm
  else do
    let sub ← getOr (alookup jcm name) "KeyError: joint"
    let xi ← getOr (alookup sub "Xposition") "KeyError: Xposition"
    let yi ← getOr (alookup sub "Yposition") "KeyError: Yposition"
    let zi ← getOr (alookup sub "Zposition") "KeyError: Zposition"
    let rxi ← getOr (alookup sub "Xrotation") "KeyError: Xrotation"
    let ryi ← getOr (alookup sub "Yrotation") "KeyError: Yrotation"
    let rzi ← getOr (alookup sub "Zrotation") "KeyError: Zrotation"
    let vx ← getOr (row.get? xi) "IndexError: column"
    let vy ← getOr (row.get? yi) "IndexError: column"
    let vz ← getOr (row.get? zi) "IndexError: column"
    let vrx ← getOr (row.get? rxi) "IndexError: column"
    let vry ← getOr (row.get? ryi) "IndexError: column"
    let vrz ← getOr (row.get? rzi) "IndexError: column"
    .ok { X := wm.X ++ [vx], Y := wm.Y ++ [vy], Z := wm.Z ++ [vz],
          Ry := wm.Ry ++ [vry], Rx := wm.Rx ++ [vrx], Rz := wm.Rz ++ [vrz] }

/-- The frame loop of `_update_hierarchy_with_motion` for one joint. -/
def buildWM (jcm : List (String × List (String × Nat))) (motion : List (List F))
    (name : String) : Except String (WM F) :=
  motion.foldlM (wmStep jcm name) emptyWM

/-- `Skeleton._update_hierarchy_with_motion`: build the per-joint
`world_motion` record for every key of the joint map. -/
def update_hierarchy_with_motion (jcm : List (String × List (String × Nat)))
    (jm : List (String × PJoint F)) (motion : List (List F)) :
    Except String (List (String × WM F)) :=
  jm.foldlM
    (fun acc p => do
      let wm ← buildWM jcm motion p.1
      .ok (acc ++ [(p.1, wm)]))
    []

/-- The per-joint, per-frame local transform read inside
`compute_world_skeleton_for_frames.compute_world_position`: the channel
values at the frame (X, Y, Z translation and Ry, Rx, Rz rotation) fed to
`transformation_matrix_yxz`. -/
def localTransformAt (piv : F) (c s : F → F) (wm : WM F) (frame : Nat) :
    Except String (Matrix (Fin 4) (Fin 4) F) := do
  let tx ← getOr (wm.X.get? frame) "IndexError: frame"
  let ty ← getOr (wm.Y.get? frame) "IndexError: frame"
  let tz ← getOr (wm.Z.get? frame) "IndexError: frame"
  let ry ← getOr (wm.Ry.get? frame) "IndexError: frame"
  let rx ← getOr (wm.Rx.get? frame) "IndexError: frame"
  let rz ← getOr (wm.Rz.get? frame) "IndexError: frame"
  .ok (transformation_matrix_yxz piv c s ry rx rz ![tx, ty, tz])

/-- The recursive `compute_world_position` of
`compute_world_skeleton_for_frames`, restricted to its transform result: the
root returns its own local transform, any other joint returns the parent's
world transform multiplied on the left. Python's recursion limit is modelled
by fuel. -/
def computeWorldTransform (piv : F) (c s : F → F) (jm : List (String × PJoint F))
    (wms : List (String × WM F)) :
    Nat → String → Nat → Except String (Matrix (Fin 4) (Fin 4) F)
  | 0, _, _ => .error "RecursionError: maximum recursion depth exceeded"
  | fuel + 1, name, frame => do
    let j ← getOr (alookup jm name) "KeyError: joint"
    let wm ← getOr (alookup wms name) "KeyError: world motion"
    let L ← localTransformAt piv c s wm frame
    match j.parent with
    | none => .ok L
    | some p => do
      let W ← computeWorldTransform piv c s jm wms fuel p frame
      .ok (W * L)

/-- The homogeneous origin `[0, 0, 0, 1]` applied for the root joint. -/
def origin4 : Fin 4 → F := ![0, 0, 0, 1]

/-- Python `np.array([*joint['offset'], 1])` followed by the 4-vector matrix
application: only a 3-element offset list yields a homogeneous 4-vector (a
`None` or wrongly sized offset raises). -/
def offsetHomog : Option (List F) → Except String (Fin 4 → F)
  | some [a, b, cc] => .ok ![a, b, cc, 1]
  | _ => .error "TypeError: offset is not a 3-vector"

/-- The body of the per-joint loop in `compute_world_skeleton_for_frames`:
compose the world transform, then apply it to the homogeneous origin for the
root and to the homogeneous static offset for every other joint, keeping the
first three coordinates. -/
def posForJoint (piv : F) (c s : F → F) (jm : List (String × PJoint F))
    (wms : List (String × WM F)) (root : String) (fuel : Nat) (j : PJoint F)
    (frame : Nat) : Except String (Fin 3 → F) := do
  let W ← computeWorldTransform piv c s jm wms fuel j.name frame
  let off ← offsetHomog j.offset
  if j.name = root then .ok (fun i => W.mulVec origin4 i.castSucc)
  else .ok (fun i => W.mulVec off i.castSucc)

/-- One iteration of the per-joint loop in
`compute_world_skeleton_for_frames`: skip end sites, otherwise store the
joint's world position in the `positions` dictionary. -/
def posStep (piv : F) (c s : F → F) (jm : List (String × PJoint F))
    (wms : List (String × WM F)) (root : String) (fuel : Nat) (frame : Nat)
    (pos : List (String × (Fin 3 → F))) (j : PJoint F) :
    Except String (List (String × (Fin 3 → F))) :=
  if isEndSite j.name then .ok pos
  else do
    let p ← posForJoint piv c s jm wms root fuel j frame
    .ok (dictInsert pos j.name p)

/-- The `positions` dictionary one frame of
`compute_world_skeleton_for_frames` builds: world position keyed by joint
name, end-site joints skipped. -/
def positionsForFrame (piv : F) (c s : F → F) (hier : List (PJoint F))
    (jm : List (String × PJoint F)) (wms : List (String × WM F)) (root : String)
    (fuel : Nat) (frame : Nat) :
    Except String (List (String × (Fin 3 → F))) :=
  hier.foldlM (posStep piv c s jm wms root fuel frame) []

/-- The flattening loop of `compute_world_skeleton_for_frames`: concatenate
each order-sequence joint's 3-vector (`KeyError` when the order sequence
names a joint without a computed position). -/
def flattenPositions (order : List String) (pos : List (String × (Fin 3 → F))) :
    Except String (List F) :=
  order.foldlM
    (fun acc name => do
      let p ← getOr (alookup pos name) "KeyError: position"
      .ok (acc ++ [p 0, p 1, p 2]))
    []

/-- `Skeleton.compute_world_skeleton_for_frames`: one flattened world-position
vector per frame. -/
def compute_world_skeleton_for_frames (piv : F) (c s : F → F)
    (hier : List (PJoint F)) (jm : List (String × PJoint F))
    (wms : List (String × WM F)) (root : String) (order : List String)
    (numFrames : Nat) (fuel : Nat) : Except String (List (List F)) :=
  (List.range numFrames).mapM
    (fun frame => do
      let pos ← positionsForFrame piv c s hier jm wms root fuel frame
      flattenPositions order pos)

/-- The canonical in-memory skeleton: the four parsed artifacts plus the
derived joint map, channel index map, per-joint world-motion record and the
flattened per-frame world positions. -/
structure Skeleton (F : Type) where
  hierarchy : List (PJoint F)
  motion : List (List F)
  channels : List String
  order : List String
  root_joint : String
  joint_channel_map : List (String × List (String × Nat))
  joint_map : List (String × PJoint F)
  world_wm : List (String × WM F)
  world_motion : List (List F)
deriving DecidableEq

/-- `Skeleton.__init__`: store the artifacts, build the joint map, take the
first hierarchy record as root (`IndexError` on an empty hierarchy), build
the channel index map, attach per-joint world motion, and precompute the
flattened world positions. Any uncaught Python exception is an error. -/
def initSkeleton (piv : F) (c s : F → F) (d : SkeletonData F) :
    Except String (Skeleton F) := do
  let jm := pyDict (d.hierarchy.map (fun j => (j.name, j)))
  let j0 ← getOr (d.hierarchy.get? 0) "IndexError: empty hierarchy"
  let jcm := build_joint_channel_map d.order d.channels
  let wms ← update_hierarchy_with_motion jcm jm d.motion
  let wmo ← compute_world_skeleton_for_frames piv c s d.hierarchy jm wms j0.name
    d.order d.motion.length (jm.length + 1)
  .ok { hierarchy := d.hierarchy, motion := d.motion, channels := d.channels,
        order := d.order, root_joint := j0.name, joint_channel_map := jcm,
        joint_map := jm, world_wm := wms, world_motion := wmo }

/-! ### Root reassignment (`Skeleton.set_new_root`) and queries -/

/-- Read one channel value of a motion row through a joint's channel
sub-map: Python `self.motion[frame, channels[kind]]`. -/
def readChannel (row : List F) (chs : List (String × Nat)) (kind : String) :
    Except String F := do
  let i ← getOr (alookup chs kind) "KeyError: channel"
  getOr (row.get? i) "IndexError: column"

/-- In-place `row[i] -= v` of NumPy, on a copied row. -/
def subAt (row : List F) (i : Nat) (v : F) : Except String (List F) :=
  match row.get? i with
  | some x => .ok (row.set i (x - v))
  | none => .error "IndexError: column"

/-- The joint loop of `set_new_root` for one frame: for every joint in the
channel index map, subtract the new root's position from the joint's three
position channels, updating the row in place left to right. -/
def subtractRow (jcm : List (String × List (String × Nat))) (px py pz : F)
    (row : List F) : Except String (List F) :=
  jcm.foldlM
    (fun r p =>
      [("Xposition", px), ("Yposition", py), ("Zposition", pz)].foldlM
        (fun r2 kv => do
          let i ← getOr (alookup p.2 kv.1) "KeyError: channel"
          subAt r2 i kv.2)
        r)
    row

/-- `Skeleton.set_new_root`: no-op on the current root; `ValueError` when the
name is not in the hierarchy; otherwise subtract the new root's per-frame
position from every joint's position channels, reparent the old root under
the new root, clear the new root's parent, and record the new root name. -/
def set_new_root (sk : Skeleton F) (new_root : String) : Except String (Skeleton F) :=
  if new_root = sk.root_joint then .ok sk
  else if (sk.hierarchy.find? (fun j => j.name = new_root)).isNone then
    .error "ValueError: Joint not found in the hierarchy."
  else do
    let _rootCh ← getOr (alookup sk.joint_channel_map sk.root_joint) "KeyError: joint"
    let nrCh ← getOr (alookup sk.joint_channel_map new_root) "KeyError: joint"
    let newMotion ← sk.motion.mapM
      (fun row => do
        let px ← readChannel row nrCh "Xposition"
        let py ← readChannel row nrCh "Yposition"
        let pz ← readChannel row nrCh "Zposition"
        subtractRow sk.joint_channel_map px py pz row)
    .ok { sk with
          motion := newMotion,
          root_joint := new_root,
          hierarchy := sk.hierarchy.map
            (fun j =>
              if j.name = sk.root_joint then { j with parent := some new_root }
              else if j.name = new_root then { j with parent := none } else j) }

/-- Python `channels.get(kind, -1)` followed by `row[...]`: a missing kind
falls back to NumPy index `-1`, the last entry of the row. -/
def readDefault (row : List F) (chs : List (String × Nat)) (kind : String) :
    Option F :=
  match alookup chs kind with
  | some i => row.get? i
  | none => row.get? (row.length - 1)

/-- `Skeleton.get_joint_rotation`: `None` for an unknown joint name or an
out-of-range frame, otherwise the `[Xrotation, Yrotation, Zrotation]` values
of that frame's motion row. -/
def get_joint_rotation (sk : Skeleton F) (name : String) (frame : Int) :
    Option (List F) :=
  match alookup sk.joint_channel_map name with
  | none => none
  | some chs =>
    if frame < 0 ∨ (sk.motion.length : Int) ≤ frame then none
    else
      match sk.motion.get? frame.toNat with
      | none => none
      | some row => do
        let a ← readDefault row chs "Xrotation"
        let b ← readDefault row chs "Yrotation"
        let cv ← readDefault row chs "Zrotation"
        pure [a, b, cv]

/-! ### A concrete well-formed skeleton used as the standard witness input -/

/-- A three-joint sample with the canonical per-joint channel order, two
frames of motion. -/
def sampleData (F : Type) [Field F] : SkeletonData F :=
  { hierarchy :=
      [⟨"Hips", none, some [0, 0, 0]⟩,
       ⟨"Spine", some "Hips", some [0, 10, 0]⟩,
       ⟨"Spine_End", some "Spine", some [0, 5, 0]⟩],
    motion :=
      [[0, 0, 0, 0, 0, 0, 0, 0, 0, 0, 0, 0],
       [10, 20, 30, 5, 15, 25, 1, 2, 3, 45, 60, 90]],
    channels := jointKinds ++ jointKinds,
    order := ["Hips", "Spine"] }

/-- Constant-one stand-in for cosine in concrete witness computations. -/
def cOne : F → F := fun _ => 1

/-- Constant-zero stand-in for sine in concrete witness computations. -/
def sZero : F → F := fun _ => 0

/-- 101 is prime, so `ZMod 101` is a kernel-computable field for witnesses. -/
instance : Fact (Nat.Prime 101) := ⟨by norm_num⟩

/-- The sample skeleton constructed over `ZMod 101` with trivial trig
stand-ins (cosine constantly 1, sine constantly 0, pi as 0). -/
def sampleSkeleton : Skeleton (ZMod 101) :=
  (initSkeleton 0 cOne sZero (sampleData (ZMod 101))).toOption.getD
    ⟨[], [], [], [], "", [], [], [], []⟩

deriving instance DecidableEq for Except

/-! ### Flat views of the channel map used to reason about `set_new_root` -/

/-- The three position channel kinds `set_new_root` subtracts over, in loop
order. -/
def positionKinds : List String := ["Xposition", "Yposition", "Zposition"]

/-- The flat list of `(column, value)` subtractions the joint loop of
`set_new_root` performs for one frame, in execution order. -/
def subUpdates (jcm : List (String × List (String × Nat))) (px py pz : F) :
    List (Nat × F) :=
  jcm.flatMap (fun p =>
    [("Xposition", px), ("Yposition", py), ("Zposition", pz)].filterMap
      (fun kv => (alookup p.2 kv.1).map (fun i => (i, kv.2))))

/-- Apply a list of `(column, value)` in-place subtractions to a row, left to
right. -/
def applyUpdates (row : List F) (us : List (Nat × F)) : List F :=
  us.foldl (fun r u => r.set u.1 (r.getD u.1 0 - u.2)) row

/-- Every column index recorded anywhere in the channel index map. -/
def allIdx (m : List (String × List (String × Nat))) : List Nat :=
  m.flatMap (fun p => p.2.map Prod.snd)

/-- The position-channel column indices recorded in the channel index map —
exactly the columns `set_new_root` writes. -/
def posIndices (jcm : List (String × List (String × Nat))) : List Nat :=
  jcm.flatMap (fun p => positionKinds.filterMap (fun k => alookup p.2 k))

/-- The channel sub-map the builder records for `Spine` in `sampleSkeleton`. -/
def spineChs : List (String × Nat) :=
  [("Xposition", 6), ("Yposition", 7), ("Zposition", 8),
   ("Yrotation", 9), ("Xrotation", 10), ("Zrotation", 11)]

/-!
### Theorems
Helper lemmas about the dictionary model, then one theorem per claim.
-/

theorem alookup_overwrite_self {α : Type} (m : List (String × α)) (k : String) (v : α)
    (h : (alookup m k).isSome) :
    alookup (m.map (fun p => if p.1 = k then (k, v) else p)) k = some v := by
  induction m with
  | nil => simp [alookup] at h
  | cons p rest ih =>
    by_cases hp : p.1 = k
    · simp [alookup, hp]
    · have htail : (alookup rest k).isSome := by simpa [alookup, hp] using h
      simp [alookup, hp, ih htail]

theorem alookup_overwrite_ne {α : Type} (m : List (String × α)) (k : String) (v : α)
    (k' : String) (hk' : ¬ k' = k) :
    alookup (m.map (fun p => if p.1 = k then (k, v) else p)) k' = alookup m k' := by
  induction m with
  | nil => simp [alookup]
  | cons p rest ih =>
    rw [List.map_cons]
    by_cases hp : p.1 = k
    · rw [if_pos hp]
      have h1 : ¬ k = k' := fun h => hk' h.symm
      have h2 : ¬ p.1 = k' := by rw [hp]; exact h1
      simp only [alookup, if_neg h1, if_neg h2, ih]
    · rw [if_neg hp]
      simp only [alookup, ih]

theorem alookup_append_right {α : Type} (m : List (String × α)) (k : String) (v : α)
    (h : alookup m k = none) : alookup (m ++ [(k, v)]) k = some v := by
  induction m with
  | nil => simp [alookup]
  | cons p rest ih =>
    by_cases hp : p.1 = k
    · simp [alookup, hp] at h
    · simp [alookup, hp] at h ⊢
      exact ih h

theorem alookup_append_ne {α : Type} (m : List (String × α)) (k : String) (v : α)
    (k' : String) (hk' : ¬ k' = k) : alookup (m ++ [(k, v)]) k' = alookup m k' := by
  induction m with
  | nil => have h1 : ¬ k = k' := fun h => hk' h.symm
           simp [alookup, h1]
  | cons p rest ih =>
    by_cases hp : p.1 = k' <;> simp [alookup, hp, ih]

theorem alookup_dictInsert {α : Type} (m : List (String × α)) (k : String) (v : α)
    (k' : String) :
    alookup (dictInsert m k v) k' = if k' = k then some v else alookup m k' := by
  unfold dictInsert
  by_cases hpre : (alookup m k).isSome
  · simp only [hpre, if_true]
    by_cases hk' : k' = k
    · subst hk'
      rw [if_pos rfl]
      exact alookup_overwrite_self m k' v hpre
    · rw [if_neg hk']
      exact alookup_overwrite_ne m k v k' hk'
  · have hnone : alookup m k = none := by
      cases h : alookup m k with
      | none => rfl
      | some x => exact absurd (by rw [h]; rfl) hpre
    simp only [hnone, Option.isSome_none, Bool.false_eq_true, if_false]
    by_cases hk' : k' = k
    · subst hk'
      rw [if_pos rfl]
      exact alookup_append_right m k' v hnone
    · rw [if_neg hk']
      exact alookup_append_ne m k v k' hk'

theorem dictInsert_of_none {α : Type} (m : List (String × α)) (k : String) (v : α)
    (h : alookup m k = none) : dictInsert m k v = m ++ [(k, v)] := by
  simp [dictInsert, h]

/-- C8: parsing the two-joint grammar example (root `Hips`, joint `Spine`, an
end site, two motion rows) yields exactly the expected hierarchy, the
six-name channel sequence twice, the two motion rows, and order
`[Hips, Spine]`. -/
theorem c8_sample_parse :
    process_bvh_lines
      ["ROOT Hips", "\x7b", "    OFFSET 0.00 0.00 0.00",
       "    CHANNELS 6 Xposition Yposition Zposition Zrotation Xrotation Yrotation",
       "    JOINT Spine", "    \x7b", "        OFFSET 0.00 10.00 0.00",
       "        CHANNELS 3 Xposition Yposition Zposition Zrotation Xrotation Yrotation",
       "        End Site", "        \x7b", "            OFFSET 0.00 5.00 0.00",
       "        \x7d", "    \x7d", "\x7d", "MOTION", "Frames: 2", "Frame Time: 0.033",
       "0.0 0.0 0.0 0.0 0.0 0.0", "10.0 20.0 30.0 5.0 15.0 25.0", ""] =
    .ok { hierarchy :=
            [⟨"Hips", none, some [0, 0, 0]⟩,
             ⟨"Spine", some "Hips", some [0, 10, 0]⟩,
             ⟨"Spine_End", some "Spine", some [0, 5, 0]⟩],
          motion := [[0, 0, 0, 0, 0, 0], [10, 20, 30, 5, 15, 25]],
          channels :=
            ["Xposition", "Yposition", "Zposition",
             "Zrotation", "Xrotation", "Yrotation",
             "Xposition", "Yposition", "Zposition",
             "Zrotation", "Xrotation", "Yrotation"],
          order := ["Hips", "Spine"] } := by decide

/-- C10: reassigning the current root is a no-op: the very same skeleton
(hierarchy, motion table and designated root included) is returned. -/
theorem c10_set_new_root_self (F : Type) [Field F] (sk : Skeleton F) :
    set_new_root sk sk.root_joint = .ok sk := by
  simp [set_new_root]

/-- The per-joint world-motion record `Spine` carries in `sampleSkeleton`. -/
def spineWM1 : WM (ZMod 101) :=
  ⟨[0, 1], [0, 2], [0, 3], [0, 45], [0, 60], [0, 90]⟩

/-- The world transform of `Spine` at frame 1 of `sampleSkeleton` (a pure
translation by `(11, 22, 33)`, since the witness trig stand-ins are
constant). -/
def spineWorld1 : Matrix (Fin 4) (Fin 4) (ZMod 101) :=
  (computeWorldTransform (0 : ZMod 101) cOne sZero sampleSkeleton.joint_map
    sampleSkeleton.world_wm (sampleSkeleton.joint_map.length + 1) "Spine" 1).toOption.getD 0

/-- The positions dictionary of frame 1 of `sampleSkeleton`
(`Hips ↦ (10, 20, 30)`, `Spine ↦ (11, 32, 33)`). -/
def samplePos1 : List (String × (Fin 3 → ZMod 101)) :=
  (positionsForFrame (0 : ZMod 101) cOne sZero sampleSkeleton.hierarchy
    sampleSkeleton.joint_map sampleSkeleton.world_wm sampleSkeleton.root_joint
    (sampleSkeleton.joint_map.length + 1) 1).toOption.getD []

/-- Construction of the sample skeleton over `ZMod 101` succeeds and yields
`sampleSkeleton`. -/
theorem initSkeleton_sample :
    initSkeleton 0 cOne sZero (sampleData (ZMod 101)) = .ok sampleSkeleton := by
  decide

/-- C9 counterexample: the repository's own sample line `CHANNELS 3 ...` lists
six names after the count token `3`, and the parser appends all six — not
exactly `n = 3` — to the channel sequence. -/
theorem c9_counterexample :
    (processLine initParseState
        "CHANNELS 3 Xposition Yposition Zposition Zrotation Xrotation Yrotation").map
      (fun st => st.channels.length) = .ok 6 ∧
    (splitWs "CHANNELS 3 Xposition Yposition Zposition Zrotation Xrotation Yrotation").get? 1
      = some "3" := by
  decide

/-- C9 amended: a `CHANNELS` line in the hierarchy phase appends all
whitespace tokens after the first two to the channel sequence — which is
exactly `n` names precisely when the line lists `n` names after the count. -/
theorem c9_channels_append (st : ParseState) (line : String)
    (hne : ¬ line = "")
    (hm : st.in_motion = false)
    (h1 : strStartsWith (strTrim line) "ROOT" = false)
    (h2 : strStartsWith (strTrim line) "JOINT" = false)
    (h3 : strStartsWith (strTrim line) "End Site" = false)
    (h4 : strStartsWith (strTrim line) "OFFSET" = false)
    (h5 : strStartsWith (strTrim line) "CHANNELS" = true) :
    processLine st line =
      .ok { st with channels := st.channels ++ (splitWs (strTrim line)).drop 2 } := by
  simp only [processLine, hne, hm, h1, h2, h3, h4, h5, Bool.false_or, Bool.or_false,
    Bool.false_eq_true, if_false, if_true, ite_false, ite_true, if_neg, not_false_iff]

theorem c9_witness :
    processLine initParseState "CHANNELS 2 Xrotation Yrotation" =
      .ok { initParseState with
            channels :=
              initParseState.channels ++
                (splitWs (strTrim "CHANNELS 2 Xrotation Yrotation")).drop 2 } :=
  c9_channels_append initParseState "CHANNELS 2 Xrotation Yrotation"
    (by decide) rfl (by decide) (by decide) (by decide) (by decide) (by decide)

/-- C5 counterexample: a closing-scope marker on an empty stack and an
unrecognized top-level token are both silently ignored (the parse continues
and even completes), not fatal; only the `OFFSET`-with-no-joint case aborts. -/
theorem c5_counterexample :
    processLine initParseState "\x7d" = .ok initParseState ∧
    process_bvh_lines ["\x7d"] = .ok ⟨[], [], [], []⟩ ∧
    processLine initParseState "UNRECOGNIZED token" = .ok initParseState ∧
    processLine initParseState "OFFSET 1.0 2.0 3.0" =
      .error "IndexError: list index out of range" := by
  decide

/-- C5 amended: in the hierarchy phase, an `OFFSET` line with no previously
appended joint is a fatal parse error; a closing-scope marker with an empty
open-scope stack and an unrecognized top-level token are silently ignored,
leaving the state unchanged. -/
theorem c5_parse_fatal_cases (st : ParseState) (line : String)
    (hne : ¬ line = "")
    (hm : st.in_motion = false)
    (h1 : strStartsWith (strTrim line) "ROOT" = false)
    (h2 : strStartsWith (strTrim line) "JOINT" = false)
    (h3 : strStartsWith (strTrim line) "End Site" = false) :
    (strStartsWith (strTrim line) "OFFSET" = true → st.hierarchy = [] →
      ∃ e, processLine st line = .error e) ∧
    (strStartsWith (strTrim line) "OFFSET" = false →
     strStartsWith (strTrim line) "CHANNELS" = false →
     strStartsWith (strTrim line) "\x7d" = true →
     st.joint_stack = [] →
      processLine st line = .ok st) ∧
    (strStartsWith (strTrim line) "OFFSET" = false →
     strStartsWith (strTrim line) "CHANNELS" = false →
     strStartsWith (strTrim line) "\x7d" = false →
     strStartsWith (strTrim line) "MOTION" = false →
      processLine st line = .ok st) := by
  refine ⟨?_, ?_, ?_⟩
  · intro h4 hh
    simp only [processLine, hne, hm, h1, h2, h3, h4, Bool.false_or, Bool.false_eq_true,
      if_false, ite_false, ite_true, if_true]
    cases hp : parseFloats ((splitWs (strTrim line)).drop 1) with
    | none => exact ⟨_, rfl⟩
    | some vals =>
      refine ⟨"IndexError: list index out of range", ?_⟩
      rw [hh]
      rfl
  · intro h4 h5 h6 hstack
    obtain ⟨hier, mot, chans, stack, inm, ord⟩ := st
    cases hstack
    cases hm
    simp only [processLine, hne, h1, h2, h3, h4, h5, h6, Bool.false_or,
      Bool.false_eq_true, if_false, ite_false, ite_true, if_true]
    rfl
  · intro h4 h5 h6 h7
    simp only [processLine, hne, hm, h1, h2, h3, h4, h5, h6, h7, Bool.false_or,
      Bool.false_eq_true, if_false, ite_false, ite_true, if_true]

theorem c5_witness :
    (strStartsWith (strTrim "OFFSET 1.0 2.0 3.0") "OFFSET" = true →
      initParseState.hierarchy = [] →
      ∃ e, processLine initParseState "OFFSET 1.0 2.0 3.0" = .error e) ∧
    (strStartsWith (strTrim "OFFSET 1.0 2.0 3.0") "OFFSET" = false →
     strStartsWith (strTrim "OFFSET 1.0 2.0 3.0") "CHANNELS" = false →
     strStartsWith (strTrim "OFFSET 1.0 2.0 3.0") "\x7d" = true →
     initParseState.joint_stack = [] →
      processLine initParseState "OFFSET 1.0 2.0 3.0" = .ok initParseState) ∧
    (strStartsWith (strTrim "OFFSET 1.0 2.0 3.0") "OFFSET" = false →
     strStartsWith (strTrim "OFFSET 1.0 2.0 3.0") "CHANNELS" = false →
     strStartsWith (strTrim "OFFSET 1.0 2.0 3.0") "\x7d" = false →
     strStartsWith (strTrim "OFFSET 1.0 2.0 3.0") "MOTION" = false →
      processLine initParseState "OFFSET 1.0 2.0 3.0" = .ok initParseState) :=
  c5_parse_fatal_cases initParseState "OFFSET 1.0 2.0 3.0"
    (by decide) rfl (by decide) (by decide) (by decide)

/-- C6 counterexample: a parse in which every motion row has length 3 while
the declared channel sequence has length 6 still succeeds — the common frame
length is never checked against the channel-sequence length. -/
theorem c6_counterexample :
    (process_bvh_lines
        ["ROOT A",
         "CHANNELS 6 Xposition Yposition Zposition Yrotation Xrotation Zrotation",
         "MOTION", "1.0 2.0 3.0"]).map
      (fun r => (r.channels.length, r.motion.map (fun row => row.length))) =
    .ok (6, [3]) := by
  decide

/-- C6 amended: every successfully parsed motion table has all frames of one
common length (the inconsistency check runs once, after the scan); that
length is not compared with the declared channel-sequence length. -/
theorem c6_frames_consistent (lines : List String) (r : SkeletonData ℚ)
    (h : process_bvh_lines lines = .ok r) :
    ∀ r1 ∈ r.motion, ∀ r2 ∈ r.motion, r1.length = r2.length := by
  intro r1 h1 r2 h2
  unfold process_bvh_lines at h
  cases hst : lines.foldlM processLine initParseState with
  | error e =>
    rw [hst] at h
    exact absurd h (by simp [Bind.bind, Except.bind])
  | ok st =>
    rw [hst] at h
    simp only [Bind.bind, Except.bind] at h
    by_cases hc : ((st.motion.map (fun row => row.length)).dedup).length > 1
    · rw [if_pos hc] at h
      cases h
    · rw [if_neg hc] at h
      cases h
      have hmem1 : r1.length ∈ (st.motion.map (fun row => row.length)).dedup :=
        List.mem_dedup.mpr (List.mem_map_of_mem _ h1)
      have hmem2 : r2.length ∈ (st.motion.map (fun row => row.length)).dedup :=
        List.mem_dedup.mpr (List.mem_map_of_mem _ h2)
      cases hdd : (st.motion.map (fun row => row.length)).dedup with
      | nil =>
        rw [hdd] at hmem1
        cases hmem1
      | cons a t =>
        cases t with
        | nil =>
          rw [hdd] at hmem1 hmem2
          simp only [List.mem_singleton] at hmem1 hmem2
          rw [hmem1, hmem2]
        | cons b u =>
          have hlen : 1 < ((st.motion.map (fun row => row.length)).dedup).length := by
            rw [hdd]
            simp only [List.length_cons]
            omega
          exact absurd hlen hc

theorem c6_witness :
    process_bvh_lines ["ROOT A", "MOTION", "1.0 2.0", "3.0 4.0"] =
      .ok ⟨[⟨"A", none, none⟩], [[1, 2], [3, 4]], [], ["A"]⟩ ∧
    ([1, 2] : List ℚ).length = ([3, 4] : List ℚ).length :=
  ⟨by decide,
   c6_frames_consistent ["ROOT A", "MOTION", "1.0 2.0", "3.0 4.0"]
     ⟨[⟨"A", none, none⟩], [[1, 2], [3, 4]], [], ["A"]⟩ (by decide)
     [1, 2] (by decide) [3, 4] (by decide)⟩

/-- C2 counterexample: on declared channel order
`[Xposition, Yposition, Zposition, Zrotation, Xrotation, Yrotation]` the
builder leaves `Yrotation` (and `Xrotation`) unmapped, while matching the six
kinds in the order they appear in the declared sequence (as the claim states)
would record all six; the code builder therefore differs from the
declared-order builder. -/
theorem c2_counterexample :
    build_joint_channel_map ["Hips"]
        ["Xposition", "Yposition", "Zposition", "Zrotation", "Xrotation", "Yrotation"] ≠
      build_joint_channel_map_declared ["Hips"]
        ["Xposition", "Yposition", "Zposition", "Zrotation", "Xrotation", "Yrotation"] ∧
    (alookup
        (build_joint_channel_map ["Hips"]
          ["Xposition", "Yposition", "Zposition", "Zrotation", "Xrotation", "Yrotation"])
        "Hips").map (fun m => alookup m "Yrotation") = some none ∧
    (alookup
        (build_joint_channel_map_declared ["Hips"]
          ["Xposition", "Yposition", "Zposition", "Zrotation", "Xrotation", "Yrotation"])
        "Hips").map (fun m => alookup m "Yrotation") = some (some 5) := by
  decide

theorem bjcm_foldl_eq (channels : List String) (order : List String) :
    ∀ (m0 : List (String × List (String × Nat))) (cur : Nat),
      order.Nodup → (∀ j ∈ order, alookup m0 j = none) →
      (order.foldl (bjcmStep channels) (m0, cur)).1 =
        m0 ++ builderWalk channels jointKinds order cur := by
  induction order with
  | nil =>
    intro m0 cur _ _
    simp [builderWalk]
  | cons j rest ih =>
    intro m0 cur hnd hfresh
    rw [List.foldl_cons]
    by_cases hend : isEndSite j
    · have hstep : bjcmStep channels (m0, cur) j = (m0, cur) := by
        simp [bjcmStep, hend]
      rw [hstep]
      have hrec := ih m0 cur hnd.of_cons
        (fun x hx => hfresh x (List.mem_cons_of_mem _ hx))
      simpa [builderWalk, hend] using hrec
    · have hstep : bjcmStep channels (m0, cur) j =
        (dictInsert m0 j (matchKinds channels jointKinds cur).1,
         (matchKinds channels jointKinds cur).2) := by
        simp [bjcmStep, hend]
      rw [hstep]
      have hj : alookup m0 j = none := hfresh j (List.mem_cons_self _ _)
      have hjnotin : j ∉ rest := (List.nodup_cons.mp hnd).1
      have hfresh2 : ∀ x ∈ rest,
          alookup (m0 ++ [(j, (matchKinds channels jointKinds cur).1)]) x = none := by
        intro x hx
        have hxj : ¬ x = j := fun hxy => hjnotin (hxy ▸ hx)
        rw [alookup_append_ne _ _ _ _ hxj]
        exact hfresh x (List.mem_cons_of_mem _ hx)
      have hrec := ih (m0 ++ [(j, (matchKinds channels jointKinds cur).1)])
        (matchKinds channels jointKinds cur).2 hnd.of_cons hfresh2
      rw [dictInsert_of_none _ _ _ hj, hrec, List.append_assoc]
      simp [builderWalk, hend]

/-- C2 amended: the channel index builder walks the order sequence with a
single running cursor and, for each non-end-site joint, matches the six
channel kinds in the fixed source order
`[Xposition, Yposition, Zposition, Yrotation, Xrotation, Zrotation]` (not the
declared-sequence order): when the channel sequence at the cursor equals the
expected kind it records the column index and advances, otherwise it leaves
that kind absent without failing. -/
theorem c2_builder_fixed_order (order channels : List String) (hnd : order.Nodup) :
    build_joint_channel_map order channels =
      build_joint_channel_map_canonical order channels := by
  unfold build_joint_channel_map build_joint_channel_map_canonical
  simpa using bjcm_foldl_eq channels order [] 0 hnd (fun _ _ => rfl)

theorem c2_witness :
    build_joint_channel_map ["Hips", "Spine"] (jointKinds ++ jointKinds) =
      build_joint_channel_map_canonical ["Hips", "Spine"] (jointKinds ++ jointKinds) :=
  c2_builder_fixed_order ["Hips", "Spine"] (jointKinds ++ jointKinds) (by decide)

theorem alookup_mem {α : Type} (m : List (String × α)) (k : String) (v : α)
    (h : alookup m k = some v) : (k, v) ∈ m := by
  induction m with
  | nil => cases h
  | cons p rest ih =>
    rw [alookup] at h
    by_cases hp : p.1 = k
    · rw [if_pos hp] at h
      injection h with hv
      have hpv : p = (k, v) := by
        obtain ⟨p1, p2⟩ := p
        simp only at hp hv
        rw [hp, hv]
      rw [← hpv]
      exact List.mem_cons_self _ _
    · rw [if_neg hp] at h
      exact List.mem_cons_of_mem _ (ih h)

theorem foldl_dictInsert_isSome {α : Type} (k : String) (l : List (String × α)) :
    ∀ m : List (String × α), ((alookup m k).isSome ∨ k ∈ l.map Prod.fst) →
      (alookup (l.foldl (fun acc p => dictInsert acc p.1 p.2) m) k).isSome := by
  induction l with
  | nil =>
    intro m hm
    rcases hm with hm | hm
    · exact hm
    · cases hm
  | cons p rest ih =>
    intro m hm
    rw [List.foldl_cons]
    apply ih
    by_cases hk : k = p.1
    · left
      rw [alookup_dictInsert, if_pos hk]
      rfl
    · rcases hm with hm | hm
      · left
        rw [alookup_dictInsert, if_neg hk]
        exact hm
      · rw [List.map_cons, List.mem_cons] at hm
        rcases hm with hm | hm
        · exact absurd hm hk
        · right
          exact hm

theorem alookup_pyDict_isSome {α : Type} (l : List (String × α)) (k : String)
    (hk : k ∈ l.map Prod.fst) : (alookup (pyDict l) k).isSome :=
  foldl_dictInsert_isSome k l [] (Or.inr hk)

theorem foldlM_ok_mem {α β : Type} (f : β → α → Except String β) (l : List α)
    (b out : β) (h : l.foldlM f b = .ok out) (x : α) (hx : x ∈ l) :
    ∃ b2 r, f b2 x = .ok r := by
  induction l generalizing b with
  | nil => cases hx
  | cons y rest ih =>
    rw [List.foldlM_cons] at h
    cases hf : f b y with
    | error e =>
      rw [hf] at h
      exact absurd h (by simp [Bind.bind, Except.bind])
    | ok b1 =>
      rw [hf] at h
      simp only [Bind.bind, Except.bind] at h
      rcases List.mem_cons.mp hx with hxy | hxr
      · exact ⟨b, b1, hxy ▸ hf⟩
      · exact ih b1 h hxr

theorem wmStep_ok_lookups {F : Type} [Field F]
    (jcm : List (String × List (String × Nat))) (name : String) (wm : WM F)
    (row : List F) (w2 : WM F) (hend : isEndSite name = false)
    (h : wmStep jcm name wm row = .ok w2) :
    ∃ sub, alookup jcm name = some sub ∧
      ∀ kind ∈ jointKinds, (alookup sub kind).isSome := by
  unfold wmStep at h
  simp only [hend, Bool.false_eq_true, if_false] at h
  cases h1 : alookup jcm name with
  | none =>
    rw [h1] at h
    exact absurd h (by simp [getOr, Bind.bind, Except.bind])
  | some sub =>
    rw [h1] at h
    simp only [getOr, Bind.bind, Except.bind] at h
    refine ⟨sub, rfl, ?_⟩
    cases hxp : alookup sub "Xposition" with
    | none => rw [hxp] at h; exact absurd h (by simp)
    | some xi =>
    rw [hxp] at h
    simp only at h
    cases hyp : alookup sub "Yposition" with
    | none => rw [hyp] at h; exact absurd h (by simp)
    | some yi =>
    rw [hyp] at h
    simp only at h
    cases hzp : alookup sub "Zposition" with
    | none => rw [hzp] at h; exact absurd h (by simp)
    | some zi =>
    rw [hzp] at h
    simp only at h
    cases hxr : alookup sub "Xrotation" with
    | none => rw [hxr] at h; exact absurd h (by simp)
    | some xri =>
    rw [hxr] at h
    simp only at h
    cases hyr : alookup sub "Yrotation" with
    | none => rw [hyr] at h; exact absurd h (by simp)
    | some yri =>
    rw [hyr] at h
    simp only at h
    cases hzr : alookup sub "Zrotation" with
    | none => rw [hzr] at h; exact absurd h (by simp)
    | some zri =>
    intro kind hk
    simp only [jointKinds, List.mem_cons, List.mem_singleton] at hk
    rcases hk with rfl | rfl | rfl | rfl | rfl | rfl | hk
    · rw [hxp]; rfl
    · rw [hyp]; rfl
    · rw [hzp]; rfl
    · rw [hyr]; rfl
    · rw [hxr]; rfl
    · rw [hzr]; rfl
    · cases hk

theorem initSkeleton_inv {F : Type} [Field F] (piv : F) (c s : F → F)
    (d : SkeletonData F) (sk : Skeleton F)
    (h : initSkeleton piv c s d = .ok sk) :
    sk.joint_map = pyDict (d.hierarchy.map (fun j => (j.name, j))) ∧
    sk.joint_channel_map = build_joint_channel_map d.order d.channels ∧
    sk.hierarchy = d.hierarchy ∧ sk.motion = d.motion ∧
    sk.channels = d.channels ∧ sk.order = d.order ∧
    update_hierarchy_with_motion (build_joint_channel_map d.order d.channels)
      (pyDict (d.hierarchy.map (fun j => (j.name, j)))) d.motion = .ok sk.world_wm ∧
    (∃ j0, d.hierarchy.get? 0 = some j0 ∧ sk.root_joint = j0.name) := by
  unfold initSkeleton at h
  cases h0 : d.hierarchy.get? 0 with
  | none =>
    rw [h0] at h
    exact absurd h (by simp [getOr, Bind.bind, Except.bind])
  | some j0 =>
    rw [h0] at h
    simp only [getOr, Bind.bind, Except.bind] at h
    cases hu : update_hierarchy_with_motion (build_joint_channel_map d.order d.channels)
        (pyDict (d.hierarchy.map (fun j => (j.name, j)))) d.motion with
    | error e =>
      rw [hu] at h
      exact absurd h (by simp)
    | ok wms =>
      rw [hu] at h
      simp only at h
      cases hw : compute_world_skeleton_for_frames piv c s d.hierarchy
          (pyDict (d.hierarchy.map (fun j => (j.name, j)))) wms j0.name d.order
          d.motion.length ((pyDict (d.hierarchy.map (fun j => (j.name, j)))).length + 1) with
      | error e =>
        rw [hw] at h
        exact absurd h (by simp)
      | ok wmo =>
        rw [hw] at h
        simp only at h
        cases h
        exact ⟨rfl, rfl, rfl, rfl, rfl, rfl, rfl, j0, rfl, rfl⟩

/-- C3 counterexample: with a declared channel order that leaves `Yrotation`
and `Xrotation` unmapped for `Hips` but an *empty* motion table, construction
succeeds (the channel-reading loops run once per frame, so they never read
the missing keys), contradicting both the claimed failure and the claimed
invariant that every constructed skeleton has all six indices mapped. -/
theorem c3_counterexample :
    initSkeleton (0 : ZMod 101) cOne sZero
        { hierarchy := [⟨"Hips", none, some [0, 0, 0]⟩], motion := [],
          channels := ["Xposition", "Yposition", "Zposition",
                       "Zrotation", "Xrotation", "Yrotation"],
          order := ["Hips"] } =
      .ok { hierarchy := [⟨"Hips", none, some [0, 0, 0]⟩], motion := [],
            channels := ["Xposition", "Yposition", "Zposition",
                         "Zrotation", "Xrotation", "Yrotation"],
            order := ["Hips"], root_joint := "Hips",
            joint_channel_map :=
              [("Hips", [("Xposition", 0), ("Yposition", 1), ("Zposition", 2),
                         ("Zrotation", 3)])],
            joint_map := [("Hips", ⟨"Hips", none, some [0, 0, 0]⟩)],
            world_wm := [("Hips", ⟨[], [], [], [], [], []⟩)],
            world_motion := [] } := by
  decide

/-- C3 amended: when the motion table is nonempty, every successfully
constructed skeleton has all six channel indices mapped for every
non-end-site joint of its hierarchy (construction reads all six indices of
every such joint for every frame and raises an uncaught key-lookup error on
a missing one, so it fails whenever the builder left a kind unmapped). -/
theorem c3_constructed_all_six_mapped (F : Type) [Field F] (piv : F) (c s : F → F)
    (d : SkeletonData F) (sk : Skeleton F)
    (hm : d.motion ≠ [])
    (hinit : initSkeleton piv c s d = .ok sk) :
    ∀ j ∈ d.hierarchy, isEndSite j.name = false →
      ∃ sub, alookup sk.joint_channel_map j.name = some sub ∧
        ∀ kind ∈ jointKinds, (alookup sub kind).isSome := by
  obtain ⟨hjm, hjcm, hh, hmo, hch, hor, hupd, -⟩ := initSkeleton_inv piv c s d sk hinit
  intro j hj hend
  have hkey : (alookup (pyDict (d.hierarchy.map (fun x => (x.name, x)))) j.name).isSome := by
    apply alookup_pyDict_isSome
    rw [List.map_map]
    exact List.mem_map_of_mem _ hj
  obtain ⟨jv, hjv⟩ := Option.isSome_iff_exists.mp hkey
  have hmem := alookup_mem _ _ _ hjv
  obtain ⟨acc, res, hstep⟩ := foldlM_ok_mem _ _ _ _ hupd (j.name, jv) hmem
  dsimp only at hstep
  obtain ⟨wm, hbw⟩ : ∃ wm,
      buildWM (build_joint_channel_map d.order d.channels) d.motion j.name = .ok wm := by
    cases hb : buildWM (build_joint_channel_map d.order d.channels) d.motion j.name with
    | error e =>
      rw [hb] at hstep
      exact absurd hstep (by simp [Bind.bind, Except.bind])
    | ok wm => exact ⟨wm, rfl⟩
  obtain ⟨row, rest, hrow⟩ : ∃ row rest, d.motion = row :: rest := by
    cases hmo2 : d.motion with
    | nil => exact absurd hmo2 hm
    | cons row rest => exact ⟨row, rest, rfl⟩
  rw [hrow] at hbw
  unfold buildWM at hbw
  rw [List.foldlM_cons] at hbw
  obtain ⟨w1, h1⟩ : ∃ w1,
      wmStep (build_joint_channel_map d.order d.channels) j.name emptyWM row = .ok w1 := by
    cases hs : wmStep (build_joint_channel_map d.order d.channels) j.name emptyWM row with
    | error e =>
      rw [hs] at hbw
      exact absurd hbw (by simp [Bind.bind, Except.bind])
    | ok w1 => exact ⟨w1, rfl⟩
  obtain ⟨sub, hsub, hkinds⟩ := wmStep_ok_lookups _ _ _ _ _ hend h1
  rw [hjcm]
  exact ⟨sub, hsub, hkinds⟩

theorem c3_witness :
    (sampleData (ZMod 101)).motion ≠ [] ∧
    (∃ sub, alookup sampleSkeleton.joint_channel_map "Hips" = some sub ∧
      ∀ kind ∈ jointKinds, (alookup sub kind).isSome) :=
  ⟨by decide,
   c3_constructed_all_six_mapped (ZMod 101) 0 cOne sZero (sampleData (ZMod 101))
     sampleSkeleton (by decide) (by decide)
     ⟨"Hips", none, some [0, 0, 0]⟩ (by decide) (by decide)⟩

/-- C7 (code evaluated at the failing configuration): on the constructed
sample skeleton the rotation accessor honours the claimed contract (3-vector
for a known joint and in-range frame, `None` otherwise, no clamping), but the
position accessor cannot: `get_joint_position` reads
`world_motion[frame, column]`, and `world_motion` is the flattened
per-frame position list — a Python `list`, for which tuple indexing raises
`TypeError` — whose rows moreover have only `3 × (non-end-site joints)`
entries (here 6, indices 0–5) while the channel columns it asks for go up to
11 (Spine's `Xposition` is column 6). -/
theorem c7_position_accessor_mismatch :
    (alookup sampleSkeleton.joint_channel_map "Spine").map
        (fun m => alookup m "Xposition") = some (some 6) ∧
    sampleSkeleton.world_motion.map (fun row => row.length) = [6, 6] ∧
    get_joint_rotation sampleSkeleton "Hips" 1 = some [15, 5, 25] ∧
    get_joint_rotation sampleSkeleton "Spine" 1 = some [60, 45, 90] ∧
    get_joint_rotation sampleSkeleton "Hips" 2 = none ∧
    get_joint_rotation sampleSkeleton "Hips" (-1) = none ∧
    get_joint_rotation sampleSkeleton "Nobody" 0 = none := by
  decide

theorem homog4_mul {F : Type} [Field F] (A B : Matrix (Fin 3) (Fin 3) F) :
    homog4 (A * B) = homog4 A * homog4 B := by
  ext i jx
  fin_cases i <;> fin_cases jx <;>
    simp [homog4, Matrix.mul_apply, Fin.sum_univ_succ]

theorem translation4_mul_homog4 {F : Type} [Field F]
    (R : Matrix (Fin 3) (Fin 3) F) (tr : Fin 3 → F) :
    translation4 tr * homog4 R =
      !![R 0 0, R 0 1, R 0 2, tr 0;
         R 1 0, R 1 1, R 1 2, tr 1;
         R 2 0, R 2 1, R 2 2, tr 2;
         0, 0, 0, 1] := by
  ext i jx
  fin_cases i <;> fin_cases jx <;>
    simp [homog4, translation4, Matrix.mul_apply, Fin.sum_univ_succ]

theorem transformation_decomposition {F : Type} [Field F] (piv : F) (c s : F → F)
    (ty tx tz : F) (tr : Fin 3 → F) :
    transformation_matrix_yxz piv c s ty tx tz tr =
      translation4 tr * homog4 (rotYmat c s (radians piv ty)) *
        homog4 (rotXmat c s (radians piv tx)) *
        homog4 (rotZmat c s (radians piv tz)) := by
  rw [mul_assoc, mul_assoc, ← homog4_mul, ← homog4_mul, ← mul_assoc,
    translation4_mul_homog4]
  rfl

theorem computeWorldTransform_succ {F : Type} [Field F] (piv : F) (c s : F → F)
    (jm : List (String × PJoint F)) (wms : List (String × WM F)) (fuel : Nat)
    (name : String) (frame : Nat) :
    computeWorldTransform piv c s jm wms (fuel + 1) name frame = (do
      let j ← getOr (alookup jm name) "KeyError: joint"
      let wm ← getOr (alookup wms name) "KeyError: world motion"
      let L ← localTransformAt piv c s wm frame
      match j.parent with
      | none => .ok L
      | some p => do
        let W ← computeWorldTransform piv c s jm wms fuel p frame
        .ok (W * L)) := rfl

theorem computeWorldTransform_fuel_mono {F : Type} [Field F] (piv : F) (c s : F → F)
    (jm : List (String × PJoint F)) (wms : List (String × WM F)) :
    ∀ (fuel : Nat) (name : String) (frame : Nat) (M : Matrix (Fin 4) (Fin 4) F),
      computeWorldTransform piv c s jm wms fuel name frame = .ok M →
      computeWorldTransform piv c s jm wms (fuel + 1) name frame = .ok M := by
  intro fuel
  induction fuel with
  | zero =>
    intro name frame M h
    exact absurd h (by simp [computeWorldTransform])
  | succ fuel ih =>
    intro name frame M h
    rw [computeWorldTransform_succ] at h
    rw [computeWorldTransform_succ]
    cases hj : alookup jm name with
    | none => exact absurd h (by simp [getOr, Bind.bind, Except.bind, hj])
    | some j =>
      simp only [getOr, Bind.bind, Except.bind, hj] at h ⊢
      cases hw : alookup wms name with
      | none => exact absurd h (by simp [hw])
      | some wm =>
        simp only [hw] at h ⊢
        cases hl : localTransformAt piv c s wm frame with
        | error e => exact absurd h (by simp [hl])
        | ok L =>
          simp only [hl] at h ⊢
          cases hp : j.parent with
          | none =>
            simp only [hp] at h ⊢
            exact h
          | some p =>
            simp only [hp] at h ⊢
            cases hr : computeWorldTransform piv c s jm wms fuel p frame with
            | error e => exact absurd h (by simp [hr])
            | ok Wp =>
              simp only [hr] at h
              rw [ih p frame Wp hr]
              exact h

theorem posStep_foldlM_preserve {F : Type} [Field F] (piv : F) (c s : F → F)
    (jm : List (String × PJoint F)) (wms : List (String × WM F)) (root : String)
    (fuel : Nat) (frame : Nat) :
    ∀ (hier : List (PJoint F)) (m pos : List (String × (Fin 3 → F))) (k : String),
      k ∉ hier.map (fun j => j.name) →
      hier.foldlM (posStep piv c s jm wms root fuel frame) m = .ok pos →
      alookup pos k = alookup m k := by
  intro hier
  induction hier with
  | nil =>
    intro m pos k _ h
    rw [List.foldlM_nil] at h
    cases h
    rfl
  | cons j rest ih =>
    intro m pos k hk h
    rw [List.foldlM_cons] at h
    have hkj : ¬ k = j.name := fun he =>
      hk (by rw [List.map_cons, he]; exact List.mem_cons_self _ _)
    have hkr : k ∉ rest.map (fun x => x.name) := fun he =>
      hk (by rw [List.map_cons]; exact List.mem_cons_of_mem _ he)
    by_cases hend : isEndSite j.name
    · have hstep : posStep piv c s jm wms root fuel frame m j = .ok m := by
        simp [posStep, hend]
      rw [hstep] at h
      simp only [Bind.bind, Except.bind] at h
      exact ih m pos k hkr h
    · rw [show posStep piv c s jm wms root fuel frame m j = (do
          let p ← posForJoint piv c s jm wms root fuel j frame
          .ok (dictInsert m j.name p)) from by simp [posStep, hend]] at h
      cases hp : posForJoint piv c s jm wms root fuel j frame with
      | error e =>
        rw [hp] at h
        exact absurd h (by simp [Bind.bind, Except.bind])
      | ok p =>
        rw [hp] at h
        simp only [Bind.bind, Except.bind] at h
        have := ih (dictInsert m j.name p) pos k hkr h
        rw [this, alookup_dictInsert, if_neg hkj]

theorem positionsForFrame_lookup {F : Type} [Field F] (piv : F) (c s : F → F)
    (jm : List (String × PJoint F)) (wms : List (String × WM F)) (root : String)
    (fuel : Nat) (frame : Nat) :
    ∀ (hier : List (PJoint F)) (m pos : List (String × (Fin 3 → F))),
      (hier.map (fun j => j.name)).Nodup →
      hier.foldlM (posStep piv c s jm wms root fuel frame) m = .ok pos →
      ∀ j ∈ hier, isEndSite j.name = false →
        ∃ p, posForJoint piv c s jm wms root fuel j frame = .ok p ∧
          alookup pos j.name = some p := by
  intro hier
  induction hier with
  | nil =>
    intro m pos _ _ j hj
    cases hj
  | cons x rest ih =>
    intro m pos hnd h j hj hend
    rw [List.foldlM_cons] at h
    rw [List.map_cons, List.nodup_cons] at hnd
    rcases List.mem_cons.mp hj with rfl | hjr
    · rw [show posStep piv c s jm wms root fuel frame m j = (do
          let p ← posForJoint piv c s jm wms root fuel j frame
          .ok (dictInsert m j.name p)) from by simp [posStep, hend]] at h
      cases hp : posForJoint piv c s jm wms root fuel j frame with
      | error e =>
        rw [hp] at h
        exact absurd h (by simp [Bind.bind, Except.bind])
      | ok p =>
        rw [hp] at h
        simp only [Bind.bind, Except.bind] at h
        refine ⟨p, rfl, ?_⟩
        rw [posStep_foldlM_preserve piv c s jm wms root fuel frame rest
          (dictInsert m j.name p) pos j.name hnd.1 h]
        rw [alookup_dictInsert, if_pos rfl]
    · by_cases hend2 : isEndSite x.name
      · have hstep : posStep piv c s jm wms root fuel frame m x = .ok m := by
          simp [posStep, hend2]
        rw [hstep] at h
        simp only [Bind.bind, Except.bind] at h
        exact ih m pos hnd.2 h j hjr hend
      · rw [show posStep piv c s jm wms root fuel frame m x = (do
            let p ← posForJoint piv c s jm wms root fuel x frame
            .ok (dictInsert m x.name p)) from by simp [posStep, hend2]] at h
        cases hp : posForJoint piv c s jm wms root fuel x frame with
        | error e =>
          rw [hp] at h
          exact absurd h (by simp [Bind.bind, Except.bind])
        | ok p =>
          rw [hp] at h
          simp only [Bind.bind, Except.bind] at h
          exact ih (dictInsert m x.name p) pos hnd.2 h j hjr hend

theorem localTransformAt_eq {F : Type} [Field F] (piv : F) (c s : F → F)
    (wm : WM F) (frame : Nat) (tx ty tz ry rx rz : F)
    (htx : wm.X.get? frame = some tx) (hty : wm.Y.get? frame = some ty)
    (htz : wm.Z.get? frame = some tz) (hry : wm.Ry.get? frame = some ry)
    (hrx : wm.Rx.get? frame = some rx) (hrz : wm.Rz.get? frame = some rz) :
    localTransformAt piv c s wm frame =
      .ok (transformation_matrix_yxz piv c s ry rx rz ![tx, ty, tz]) := by
  unfold localTransformAt
  rw [htx, hty, htz, hry, hrx, hrz]
  rfl

/-- C1: for every constructed skeleton, joint and frame — (a) the joint's
local transform is the homogeneous translation by its frame channels composed
(left to right) with the Y-, X- and Z-axis rotations at the frame's angles
converted from degrees to radians; (b) the joint's world transform is its
own local transform at the root and the parent's world transform multiplied
on the left with the local transform otherwise; (c) the reported world
position for the frame applies this composed transform to the joint's static
offset as a homogeneous vector, and to the origin for the root. -/
theorem c1_world_transform_composition (F : Type) [Field F] (piv : F) (c s : F → F)
    (d : SkeletonData F) (sk : Skeleton F)
    (hinit : initSkeleton piv c s d = .ok sk)
    (hnd : (sk.hierarchy.map (fun j => j.name)).Nodup)
    (j : PJoint F) (hj : j ∈ sk.hierarchy) (hend : isEndSite j.name = false)
    (frame : Nat) (wm : WM F) (hwm : alookup sk.world_wm j.name = some wm)
    (tx ty tz ry rx rz : F)
    (htx : wm.X.get? frame = some tx) (hty : wm.Y.get? frame = some ty)
    (htz : wm.Z.get? frame = some tz) (hry : wm.Ry.get? frame = some ry)
    (hrx : wm.Rx.get? frame = some rx) (hrz : wm.Rz.get? frame = some rz)
    (W : Matrix (Fin 4) (Fin 4) F)
    (hW : computeWorldTransform piv c s sk.joint_map sk.world_wm
        (sk.joint_map.length + 1) j.name frame = .ok W)
    (pos : List (String × (Fin 3 → F)))
    (hpos : positionsForFrame piv c s sk.hierarchy sk.joint_map sk.world_wm
        sk.root_joint (sk.joint_map.length + 1) frame = .ok pos) :
    localTransformAt piv c s wm frame =
      .ok (translation4 ![tx, ty, tz] *
        homog4 (rotYmat c s (radians piv ry)) *
        homog4 (rotXmat c s (radians piv rx)) *
        homog4 (rotZmat c s (radians piv rz))) ∧
    (∀ jrec, alookup sk.joint_map j.name = some jrec →
      (jrec.parent = none →
        W = transformation_matrix_yxz piv c s ry rx rz ![tx, ty, tz]) ∧
      (∀ par, jrec.parent = some par →
        ∃ Wp, computeWorldTransform piv c s sk.joint_map sk.world_wm
            (sk.joint_map.length + 1) par frame = .ok Wp ∧
          W = Wp * transformation_matrix_yxz piv c s ry rx rz ![tx, ty, tz])) ∧
    (∀ off, offsetHomog j.offset = .ok off →
      alookup pos j.name =
        some (fun i => W.mulVec
          (if j.name = sk.root_joint then origin4 else off) i.castSucc)) := by
  have hloc := localTransformAt_eq piv c s wm frame tx ty tz ry rx rz
    htx hty htz hry hrx hrz
  refine ⟨?_, ?_, ?_⟩
  · rw [hloc, transformation_decomposition]
  · intro jrec hjrec
    rw [computeWorldTransform_succ] at hW
    simp only [hjrec, hwm, hloc, getOr, Bind.bind, Except.bind] at hW
    constructor
    · intro hpn
      simp only [hpn] at hW
      injection hW with hW2
      exact hW2.symm
    · intro par hpp
      simp only [hpp] at hW
      cases hr : computeWorldTransform piv c s sk.joint_map sk.world_wm
          sk.joint_map.length par frame with
      | error e =>
        rw [hr] at hW
        exact absurd hW (by simp)
      | ok Wp =>
        rw [hr] at hW
        simp only at hW
        injection hW with hW2
        exact ⟨Wp, computeWorldTransform_fuel_mono piv c s sk.joint_map sk.world_wm
          sk.joint_map.length par frame Wp hr, hW2.symm⟩
  · intro off hoff
    unfold positionsForFrame at hpos
    obtain ⟨p, hpj, hlook⟩ := positionsForFrame_lookup piv c s sk.joint_map
      sk.world_wm sk.root_joint (sk.joint_map.length + 1) frame sk.hierarchy []
      pos hnd hpos j hj hend
    unfold posForJoint at hpj
    simp only [hW, hoff, Bind.bind, Except.bind] at hpj
    rw [hlook]
    by_cases hroot : j.name = sk.root_joint
    · simp only [hroot, ite_true] at hpj ⊢
      injection hpj with hp2
      rw [← hp2]
    · simp only [if_neg hroot] at hpj ⊢
      injection hpj with hp2
      rw [← hp2]

theorem c1_witness :
    (localTransformAt (0 : ZMod 101) cOne sZero spineWM1 1 =
      .ok (translation4 ![1, 2, 3] *
        homog4 (rotYmat cOne sZero (radians 0 45)) *
        homog4 (rotXmat cOne sZero (radians 0 60)) *
        homog4 (rotZmat cOne sZero (radians 0 90)))) ∧
    (∃ Wp, computeWorldTransform (0 : ZMod 101) cOne sZero sampleSkeleton.joint_map
        sampleSkeleton.world_wm (sampleSkeleton.joint_map.length + 1) "Hips" 1 =
          .ok Wp ∧
      spineWorld1 = Wp *
        transformation_matrix_yxz (0 : ZMod 101) cOne sZero 45 60 90 ![1, 2, 3]) ∧
    (alookup samplePos1 "Spine" =
      some (fun i => spineWorld1.mulVec
        (if "Spine" = sampleSkeleton.root_joint then origin4 else ![0, 10, 0, 1])
        i.castSucc)) := by
  have H := c1_world_transform_composition (ZMod 101) 0 cOne sZero
    (sampleData (ZMod 101)) sampleSkeleton (by decide) (by decide)
    ⟨"Spine", some "Hips", some [0, 10, 0]⟩ (by decide) (by decide)
    1 spineWM1 (by decide) 1 2 3 45 60 90 rfl rfl rfl rfl rfl rfl
    spineWorld1 rfl samplePos1 rfl
  exact ⟨H.1,
    (H.2.1 ⟨"Spine", some "Hips", some [0, 10, 0]⟩ (by decide)).2 "Hips" rfl,
    H.2.2 ![0, 10, 0, 1] (by decide)⟩

theorem getD_set_self {F : Type} [Field F] (row : List F) (i : Nat) (a : F)
    (hi : i < row.length) : (row.set i a).getD i 0 = a := by
  simp [List.getD, List.getElem?_set_eq_of_lt a hi]

theorem getD_set_ne {F : Type} [Field F] (row : List F) (i : Nat) (a : F)
    (k : Nat) (hik : ¬ i = k) : (row.set i a).getD k 0 = row.getD k 0 := by
  simp [List.getD, List.getElem?_set_ne hik]

theorem applyUpdates_length {F : Type} [Field F] (us : List (Nat × F)) :
    ∀ row : List F, (applyUpdates row us).length = row.length := by
  induction us with
  | nil => intro row; rfl
  | cons u us ih =>
    intro row
    rw [show applyUpdates row (u :: us) =
      applyUpdates (row.set u.1 (row.getD u.1 0 - u.2)) us from rfl]
    rw [ih, List.length_set]

theorem applyUpdates_getD {F : Type} [Field F] (us : List (Nat × F)) :
    ∀ (row : List F) (k : Nat), k < row.length →
      (applyUpdates row us).getD k 0 =
        row.getD k 0 - ((us.filter (fun u => u.1 = k)).map Prod.snd).sum := by
  induction us with
  | nil =>
    intro row k _
    simp [applyUpdates]
  | cons u us ih =>
    intro row k hk
    rw [show applyUpdates row (u :: us) =
      applyUpdates (row.set u.1 (row.getD u.1 0 - u.2)) us from rfl]
    have hk2 : k < (row.set u.1 (row.getD u.1 0 - u.2)).length := by
      rw [List.length_set]
      exact hk
    rw [ih _ k hk2]
    by_cases hu : u.1 = k
    · rw [List.filter_cons_of_pos (by simpa using hu)]
      subst hu
      rw [getD_set_self row u.1 _ hk]
      rw [List.map_cons, List.sum_cons]
      ring
    · rw [List.filter_cons_of_neg (by simpa using hu)]
      rw [getD_set_ne row u.1 _ k hu]

theorem applyUpdates_get?_not_mem {F : Type} [Field F] (us : List (Nat × F)) :
    ∀ (row : List F) (k : Nat), k ∉ us.map Prod.fst →
      (applyUpdates row us).get? k = row.get? k := by
  induction us with
  | nil => intro row k _; rfl
  | cons u us ih =>
    intro row k hk
    rw [List.map_cons] at hk
    have hu : ¬ u.1 = k := fun he => hk (he ▸ List.mem_cons_self _ _)
    have hk2 : k ∉ us.map Prod.fst := fun he => hk (List.mem_cons_of_mem _ he)
    rw [show applyUpdates row (u :: us) =
      applyUpdates (row.set u.1 (row.getD u.1 0 - u.2)) us from rfl]
    rw [ih _ k hk2]
    simp [List.get?_eq_getElem?, List.getElem?_set_ne hu]

theorem matchKinds_spec (channels : List String) :
    ∀ (ks : List String) (cur : Nat),
      cur ≤ (matchKinds channels ks cur).2 ∧
      (∀ q ∈ (matchKinds channels ks cur).1,
        cur ≤ q.2 ∧ q.2 < (matchKinds channels ks cur).2 ∧ q.2 < channels.length) ∧
      ((matchKinds channels ks cur).1.map Prod.snd).Pairwise (· < ·) := by
  intro ks
  induction ks with
  | nil =>
    intro cur
    refine ⟨le_refl _, ?_, ?_⟩
    · intro q hq
      cases hq
    · exact List.Pairwise.nil
  | cons k ks ih =>
    intro cur
    have heq : matchKinds channels (k :: ks) cur =
        if channels.get? cur = some k then
          ((k, cur) :: (matchKinds channels ks (cur + 1)).1,
            (matchKinds channels ks (cur + 1)).2)
        else matchKinds channels ks cur := rfl
    rw [heq]
    by_cases hc : channels.get? cur = some k
    · rw [if_pos hc]
      obtain ⟨ih1, ih2, ih3⟩ := ih (cur + 1)
      have hcur : cur < channels.length := by
        have := List.get?_eq_some.mp hc
        exact this.1
      refine ⟨by omega, ?_, ?_⟩
      · intro q hq
        rcases List.mem_cons.mp hq with rfl | hq2
        · exact ⟨le_refl _, by omega, hcur⟩
        · obtain ⟨hq1, hq2', hq3⟩ := ih2 q hq2
          exact ⟨by omega, hq2', hq3⟩
      · rw [List.map_cons, List.pairwise_cons]
        refine ⟨?_, ih3⟩
        intro b hb
        obtain ⟨q, hq, hqb⟩ := List.mem_map.mp hb
        obtain ⟨hq1, _, _⟩ := ih2 q hq
        omega
    · rw [if_neg hc]
      exact ih cur

theorem pairwise_snd_lookup_injective (m : List (String × Nat))
    (hp : (m.map Prod.snd).Pairwise (· < ·)) (k1 k2 : String) (i : Nat)
    (h1 : (k1, i) ∈ m) (h2 : (k2, i) ∈ m) : k1 = k2 := by
  have hne : m.Pairwise (fun a b => a.2 ≠ b.2) :=
    (List.pairwise_map.mp hp).imp (fun h => Nat.ne_of_lt h)
  by_cases he : (k1, i) = (k2, i)
  · injection he with he1 _
  · have := hne.forall (fun a b hab => hab.symm) h1 h2 he
    simp at this

theorem walk_posIdx_spec (channels : List String) :
    ∀ (order : List String) (cur : Nat),
      (∀ i ∈ posIndices (builderWalk channels jointKinds order cur),
        cur ≤ i ∧ i < channels.length) ∧
      (posIndices (builderWalk channels jointKinds order cur)).Pairwise (· ≠ ·) := by
  intro order
  induction order with
  | nil =>
    intro cur
    constructor
    · intro i hi
      simp [builderWalk, posIndices] at hi
    · simp [builderWalk, posIndices]
  | cons j rest ih =>
    intro cur
    have heq : builderWalk channels jointKinds (j :: rest) cur =
        if isEndSite j then builderWalk channels jointKinds rest cur
        else (j, (matchKinds channels jointKinds cur).1) ::
          builderWalk channels jointKinds rest (matchKinds channels jointKinds cur).2 := by
      by_cases hend : isEndSite j <;> simp [builderWalk, hend]
    rw [heq]
    by_cases hend : isEndSite j
    · rw [if_pos hend]
      exact ih cur
    · rw [if_neg hend]
      obtain ⟨mk1, mk2, mk3⟩ := matchKinds_spec channels jointKinds cur
      obtain ⟨ihb, ihp⟩ := ih (matchKinds channels jointKinds cur).2
      have hpos_cons : posIndices ((j, (matchKinds channels jointKinds cur).1) ::
          builderWalk channels jointKinds rest (matchKinds channels jointKinds cur).2) =
          positionKinds.filterMap (fun k => alookup (matchKinds channels jointKinds cur).1 k) ++
          posIndices (builderWalk channels jointKinds rest
            (matchKinds channels jointKinds cur).2) := rfl
      rw [hpos_cons]
      have hentry : ∀ i ∈ positionKinds.filterMap
          (fun k => alookup (matchKinds channels jointKinds cur).1 k),
          cur ≤ i ∧ i < (matchKinds channels jointKinds cur).2 ∧ i < channels.length := by
        intro i hi
        obtain ⟨k, _, hik⟩ := List.mem_filterMap.mp hi
        exact mk2 (k, i) (alookup_mem _ k i hik)
      constructor
      · intro i hi
        rcases List.mem_append.mp hi with hi | hi
        · obtain ⟨h1, _, h3⟩ := hentry i hi
          exact ⟨h1, h3⟩
        · obtain ⟨h1, h3⟩ := ihb i hi
          exact ⟨by omega, h3⟩
      · rw [List.pairwise_append]
        refine ⟨?_, ihp, ?_⟩
        · rw [List.pairwise_filterMap]
          have hknd : positionKinds.Pairwise (fun a b : String => ¬ a = b) := by
            simp [positionKinds]
          refine hknd.imp_of_mem ?_
          intro k1 k2 _ _ hne i1 hi1 i2 hi2
          intro hi12
          subst hi12
          apply hne
          exact pairwise_snd_lookup_injective _ mk3 k1 k2 i1
            (alookup_mem _ k1 i1 hi1) (alookup_mem _ k2 i1 hi2)
        · intro a ha b hb
          obtain ⟨_, h2, _⟩ := hentry a ha
          obtain ⟨hb1, _⟩ := ihb b hb
          omega

theorem subUpdates_map_fst {F : Type} [Field F]
    (jcm : List (String × List (String × Nat))) (px py pz : F) :
    (subUpdates jcm px py pz).map Prod.fst = posIndices jcm := by
  unfold subUpdates posIndices
  induction jcm with
  | nil => rfl
  | cons p rest ih =>
    rw [List.flatMap_cons, List.flatMap_cons, List.map_append, ih]
    congr 1
    cases h1 : alookup p.2 "Xposition" <;> cases h2 : alookup p.2 "Yposition" <;>
      cases h3 : alookup p.2 "Zposition" <;>
        simp [positionKinds, List.filterMap_cons, h1, h2, h3]

theorem filter_eq_of_pairwise_ne_fst {F : Type} [Field F] :
    ∀ (us : List (Nat × F)), (us.map Prod.fst).Pairwise (· ≠ ·) →
      ∀ (k : Nat) (v : F), (k, v) ∈ us →
        (us.filter (fun u => u.1 = k)).map Prod.snd = [v] := by
  intro us
  induction us with
  | nil =>
    intro _ k v hm
    cases hm
  | cons u us ih =>
    intro hp k v hm
    rw [List.map_cons, List.pairwise_cons] at hp
    rcases List.mem_cons.mp hm with rfl | hm2
    · rw [List.filter_cons_of_pos (by simp)]
      have hnil : us.filter (fun u => u.1 = k) = [] := by
        rw [List.filter_eq_nil]
        intro a ha
        have hne := hp.1 a.1 (List.mem_map_of_mem _ ha)
        simp only [decide_eq_true_eq]
        exact fun he => hne he.symm
      rw [hnil]
      rfl
    · have hk : k ∈ us.map Prod.fst := by
        have := List.mem_map_of_mem Prod.fst hm2
        simpa using this
      have hu : ¬ u.1 = k := hp.1 k hk
      rw [List.filter_cons_of_neg (by simpa using hu)]
      exact ih hp.2 k v hm2

theorem get?_eq_getD {F : Type} [Field F] (row : List F) (i : Nat)
    (hi : i < row.length) : row.get? i = some (row.getD i 0) := by
  rw [List.get?_eq_getElem?, List.getElem?_eq_getElem hi]
  simp [List.getD, List.getElem?_eq_getElem hi]

theorem subAt_eq {F : Type} [Field F] (row : List F) (i : Nat) (v : F)
    (hi : i < row.length) :
    subAt row i v = .ok (row.set i (row.getD i 0 - v)) := by
  unfold subAt
  rw [get?_eq_getD row i hi]

theorem innerFold_eq {F : Type} [Field F] (chs : List (String × Nat)) (px py pz : F)
    (row : List F) (ix iy iz : Nat)
    (hx : alookup chs "Xposition" = some ix) (hy : alookup chs "Yposition" = some iy)
    (hz : alookup chs "Zposition" = some iz)
    (hbx : ix < row.length) (hby : iy < row.length) (hbz : iz < row.length) :
    ([("Xposition", px), ("Yposition", py), ("Zposition", pz)].foldlM
      (fun r2 kv => do
        let i ← getOr (alookup chs kv.1) "KeyError: channel"
        subAt r2 i kv.2) row) =
      .ok (applyUpdates row [(ix, px), (iy, py), (iz, pz)]) := by
  simp only [List.foldlM_cons, List.foldlM_nil, hx, hy, hz, getOr, Bind.bind,
    Except.bind]
  rw [subAt_eq row ix px hbx]
  simp only
  rw [subAt_eq _ iy py (by rw [List.length_set]; exact hby)]
  simp only
  rw [subAt_eq _ iz pz (by rw [List.length_set, List.length_set]; exact hbz)]
  rfl

theorem subUpdates_cons_of_lookups {F : Type} [Field F]
    (p : String × List (String × Nat)) (rest : List (String × List (String × Nat)))
    (px py pz : F) (ix iy iz : Nat)
    (hx : alookup p.2 "Xposition" = some ix) (hy : alookup p.2 "Yposition" = some iy)
    (hz : alookup p.2 "Zposition" = some iz) :
    subUpdates (p :: rest) px py pz =
      [(ix, px), (iy, py), (iz, pz)] ++ subUpdates rest px py pz := by
  unfold subUpdates
  rw [List.flatMap_cons]
  congr 1
  simp [List.filterMap_cons, hx, hy, hz]

theorem subtractRow_eq {F : Type} [Field F] :
    ∀ (jcm : List (String × List (String × Nat))) (px py pz : F) (row : List F),
      (∀ p ∈ jcm, ∀ k ∈ positionKinds, (alookup p.2 k).isSome) →
      (∀ i ∈ posIndices jcm, i < row.length) →
      subtractRow jcm px py pz row = .ok (applyUpdates row (subUpdates jcm px py pz)) := by
  intro jcm
  induction jcm with
  | nil =>
    intro px py pz row _ _
    rfl
  | cons p rest ih =>
    intro px py pz row hcomp hb
    obtain ⟨ix, hx⟩ := Option.isSome_iff_exists.mp
      (hcomp p (List.mem_cons_self _ _) "Xposition" (by simp [positionKinds]))
    obtain ⟨iy, hy⟩ := Option.isSome_iff_exists.mp
      (hcomp p (List.mem_cons_self _ _) "Yposition" (by simp [positionKinds]))
    obtain ⟨iz, hz⟩ := Option.isSome_iff_exists.mp
      (hcomp p (List.mem_cons_self _ _) "Zposition" (by simp [positionKinds]))
    have hmemx : ix ∈ posIndices (p :: rest) := by
      unfold posIndices
      rw [List.flatMap_cons]
      exact List.mem_append_left _
        (List.mem_filterMap.mpr ⟨"Xposition", by simp [positionKinds], hx⟩)
    have hmemy : iy ∈ posIndices (p :: rest) := by
      unfold posIndices
      rw [List.flatMap_cons]
      exact List.mem_append_left _
        (List.mem_filterMap.mpr ⟨"Yposition", by simp [positionKinds], hy⟩)
    have hmemz : iz ∈ posIndices (p :: rest) := by
      unfold posIndices
      rw [List.flatMap_cons]
      exact List.mem_append_left _
        (List.mem_filterMap.mpr ⟨"Zposition", by simp [positionKinds], hz⟩)
    have hbx := hb ix hmemx
    have hby := hb iy hmemy
    have hbz := hb iz hmemz
    unfold subtractRow
    rw [List.foldlM_cons]
    have hin := innerFold_eq p.2 px py pz row ix iy iz hx hy hz hbx hby hbz
    rw [hin]
    simp only [Bind.bind, Except.bind]
    have hrec := ih px py pz (applyUpdates row [(ix, px), (iy, py), (iz, pz)])
      (fun q hq k hk => hcomp q (List.mem_cons_of_mem _ hq) k hk)
      (by
        intro i hi
        rw [applyUpdates_length]
        apply hb
        unfold posIndices
        rw [List.flatMap_cons]
        exact List.mem_append_right _ hi)
    have hflat : applyUpdates row (subUpdates (p :: rest) px py pz) =
        applyUpdates (applyUpdates row [(ix, px), (iy, py), (iz, pz)])
          (subUpdates rest px py pz) := by
      rw [subUpdates_cons_of_lookups p rest px py pz ix iy iz hx hy hz]
      unfold applyUpdates
      rw [List.foldl_append]
    rw [hflat]
    exact hrec

theorem mapM_ok {α β : Type} (f : α → Except String β) (g : α → β) :
    ∀ l : List α, (∀ x ∈ l, f x = .ok (g x)) → l.mapM f = .ok (l.map g) := by
  intro l
  induction l with
  | nil => intro _; rfl
  | cons x rest ih =>
    intro h
    rw [List.mapM_cons, h x (List.mem_cons_self _ _),
      ih (fun y hy => h y (List.mem_cons_of_mem _ hy))]
    rfl

theorem mem_posIndices_of_lookup (jcm : List (String × List (String × Nat)))
    (jn : String) (chs : List (String × Nat)) (kind : String) (i : Nat)
    (hm : (jn, chs) ∈ jcm) (hk : kind ∈ positionKinds)
    (hik : alookup chs kind = some i) : i ∈ posIndices jcm := by
  unfold posIndices
  exact List.mem_flatMap.mpr ⟨(jn, chs), hm, List.mem_filterMap.mpr ⟨kind, hk, hik⟩⟩

theorem mem_subUpdates_of_lookup {F : Type} [Field F]
    (jcm : List (String × List (String × Nat))) (px py pz : F)
    (jn : String) (chs : List (String × Nat)) (kind : String) (v : F) (i : Nat)
    (hm : (jn, chs) ∈ jcm)
    (hkv : (kind, v) ∈ [("Xposition", px), ("Yposition", py), ("Zposition", pz)])
    (hik : alookup chs kind = some i) : (i, v) ∈ subUpdates jcm px py pz := by
  unfold subUpdates
  refine List.mem_flatMap.mpr ⟨(jn, chs), hm, List.mem_filterMap.mpr ⟨(kind, v), hkv, ?_⟩⟩
  rw [hik]
  rfl

theorem bind_ok_ex {A B : Type} (a : A) (f : A → Except String B) :
    (Except.ok a : Except String A) >>= f = f a := rfl

/-- C4 amended: for every constructed skeleton and every non-end-site joint
`X` of the hierarchy (one with an entry in the channel index map) other than
the current root, `set_new_root X` succeeds and: subtracts `X`'s per-frame
position 3-vector from the position channels of every joint in the channel
map in every frame (so `X`'s position channels are zero afterwards), leaves
every column that is not a recorded position channel — rotation channels
included — and every offset unchanged, sets the old root's parent to `X`,
clears `X`'s parent, changes no other parent edge, and records `X` as the
designated root. -/
theorem c4_set_new_root (F : Type) [Field F] (piv : F) (c s : F → F)
    (d : SkeletonData F) (sk : Skeleton F) (X : String)
    (hinit : initSkeleton piv c s d = .ok sk)
    (hndo : d.order.Nodup)
    (hrows : ∀ row ∈ sk.motion, sk.channels.length ≤ row.length)
    (hcomp : ∀ p ∈ sk.joint_channel_map, ∀ k ∈ positionKinds, (alookup p.2 k).isSome)
    (hfind : (sk.hierarchy.find? (fun j => j.name = X)).isSome)
    (hXne : ¬ X = sk.root_joint)
    (chsX : List (String × Nat))
    (hXjcm : alookup sk.joint_channel_map X = some chsX)
    (hroot : (alookup sk.joint_channel_map sk.root_joint).isSome) :
    ∃ sk', set_new_root sk X = .ok sk' ∧
      sk'.root_joint = X ∧
      sk'.hierarchy = sk.hierarchy.map (fun j =>
        if j.name = sk.root_joint then { j with parent := some X }
        else if j.name = X then { j with parent := none } else j) ∧
      sk'.channels = sk.channels ∧ sk'.order = sk.order ∧
      sk'.joint_channel_map = sk.joint_channel_map ∧
      sk'.motion.length = sk.motion.length ∧
      ∀ f row, sk.motion.get? f = some row →
        ∃ row', sk'.motion.get? f = some row' ∧ row'.length = row.length ∧
          (∀ jn chs kind i iX, alookup sk.joint_channel_map jn = some chs →
            kind ∈ positionKinds → alookup chs kind = some i →
            alookup chsX kind = some iX →
            row'.getD i 0 = row.getD i 0 - row.getD iX 0) ∧
          (∀ kind i, kind ∈ positionKinds → alookup chsX kind = some i →
            row'.getD i 0 = 0) ∧
          (∀ k, k ∉ posIndices sk.joint_channel_map → row'.get? k = row.get? k) := by
  obtain ⟨hjm, hjcm, hh, hmo, hch, hor, hupd, -⟩ := initSkeleton_inv piv c s d sk hinit
  have hwalk : sk.joint_channel_map = builderWalk d.channels jointKinds d.order 0 := by
    rw [hjcm]
    unfold build_joint_channel_map
    have := bjcm_foldl_eq d.channels d.order [] 0 hndo (fun _ _ => rfl)
    simpa using this
  obtain ⟨hbnd0, hpw0⟩ := walk_posIdx_spec d.channels d.order 0
  have hbidx : ∀ i ∈ posIndices sk.joint_channel_map, i < sk.channels.length := by
    intro i hi
    rw [hwalk] at hi
    rw [hch]
    exact (hbnd0 i hi).2
  have hpw2 : (posIndices sk.joint_channel_map).Pairwise (· ≠ ·) := by
    rw [hwalk]
    exact hpw0
  have hXmem : (X, chsX) ∈ sk.joint_channel_map := alookup_mem _ _ _ hXjcm
  obtain ⟨ixX, hixX⟩ := Option.isSome_iff_exists.mp
    (hcomp (X, chsX) hXmem "Xposition" (by simp [positionKinds]))
  obtain ⟨iyX, hiyX⟩ := Option.isSome_iff_exists.mp
    (hcomp (X, chsX) hXmem "Yposition" (by simp [positionKinds]))
  obtain ⟨izX, hizX⟩ := Option.isSome_iff_exists.mp
    (hcomp (X, chsX) hXmem "Zposition" (by simp [positionKinds]))
  have hrowbnd : ∀ row ∈ sk.motion, ∀ i ∈ posIndices sk.joint_channel_map,
      i < row.length :=
    fun row hrow i hi => lt_of_lt_of_le (hbidx i hi) (hrows row hrow)
  have hmapM : sk.motion.mapM (fun row => do
        let px ← readChannel row chsX "Xposition"
        let py ← readChannel row chsX "Yposition"
        let pz ← readChannel row chsX "Zposition"
        subtractRow sk.joint_channel_map px py pz row) =
      .ok (sk.motion.map (fun row => applyUpdates row
        (subUpdates sk.joint_channel_map (row.getD ixX 0) (row.getD iyX 0)
          (row.getD izX 0)))) := by
    apply mapM_ok
    intro row hrow
    have hbX : ixX < row.length := hrowbnd row hrow ixX
      (mem_posIndices_of_lookup _ X chsX "Xposition" ixX hXmem (by simp [positionKinds]) hixX)
    have hbY : iyX < row.length := hrowbnd row hrow iyX
      (mem_posIndices_of_lookup _ X chsX "Yposition" iyX hXmem (by simp [positionKinds]) hiyX)
    have hbZ : izX < row.length := hrowbnd row hrow izX
      (mem_posIndices_of_lookup _ X chsX "Zposition" izX hXmem (by simp [positionKinds]) hizX)
    have hrd : ∀ (kind : String) (i : Nat), alookup chsX kind = some i →
        i < row.length → readChannel row chsX kind = .ok (row.getD i 0) := by
      intro kind i hik hbi
      unfold readChannel
      rw [hik]
      simp only [getOr, Bind.bind, Except.bind]
      rw [get?_eq_getD row i hbi]
    rw [hrd "Xposition" ixX hixX hbX]
    simp only [Bind.bind, Except.bind]
    rw [hrd "Yposition" iyX hiyX hbY]
    simp only
    rw [hrd "Zposition" izX hizX hbZ]
    simp only
    exact subtractRow_eq sk.joint_channel_map _ _ _ row hcomp (hrowbnd row hrow)
  have hset : set_new_root sk X = .ok { sk with
      motion := sk.motion.map (fun row => applyUpdates row
        (subUpdates sk.joint_channel_map (row.getD ixX 0) (row.getD iyX 0)
          (row.getD izX 0))),
      root_joint := X,
      hierarchy := sk.hierarchy.map (fun j =>
        if j.name = sk.root_joint then { j with parent := some X }
        else if j.name = X then { j with parent := none } else j) } := by
    unfold set_new_root
    rw [if_neg hXne]
    have hfind2 : (sk.hierarchy.find? (fun j => j.name = X)).isNone = false := by
      obtain ⟨jf, hjf⟩ := Option.isSome_iff_exists.mp hfind
      rw [hjf]
      rfl
    simp only [hfind2, Bool.false_eq_true, if_false]
    obtain ⟨rch, hrch⟩ := Option.isSome_iff_exists.mp hroot
    simp only [hrch, hXjcm, getOr, bind_ok_ex]
    rw [hmapM]
    rfl
  refine ⟨_, hset, rfl, rfl, rfl, rfl, rfl, by rw [List.length_map], ?_⟩
  intro f row hrowf
  have hrowmem : row ∈ sk.motion := List.get?_mem hrowf
  refine ⟨applyUpdates row (subUpdates sk.joint_channel_map (row.getD ixX 0)
    (row.getD iyX 0) (row.getD izX 0)), ?_, applyUpdates_length _ row, ?_, ?_, ?_⟩
  · rw [List.get?_map, hrowf]
    rfl
  · intro jn chs kind i iX hjn hkind hik hiX
    have hchm : (jn, chs) ∈ sk.joint_channel_map := alookup_mem _ _ _ hjn
    have hbi : i < row.length := hrowbnd row hrowmem i
      (mem_posIndices_of_lookup _ jn chs kind i hchm hkind hik)
    rw [applyUpdates_getD _ row i hbi]
    have hpwu : ((subUpdates sk.joint_channel_map (row.getD ixX 0) (row.getD iyX 0)
        (row.getD izX 0)).map Prod.fst).Pairwise (· ≠ ·) := by
      rw [subUpdates_map_fst]
      exact hpw2
    simp only [positionKinds, List.mem_cons, List.not_mem_nil, or_false] at hkind
    rcases hkind with rfl | rfl | rfl
    · rw [hixX] at hiX
      injection hiX with hiX2
      subst hiX2
      have hmemu := mem_subUpdates_of_lookup sk.joint_channel_map
        (row.getD ixX 0) (row.getD iyX 0) (row.getD izX 0) jn chs "Xposition"
        (row.getD ixX 0) i hchm (by simp) hik
      rw [filter_eq_of_pairwise_ne_fst _ hpwu i _ hmemu]
      simp
    · rw [hiyX] at hiX
      injection hiX with hiX2
      subst hiX2
      have hmemu := mem_subUpdates_of_lookup sk.joint_channel_map
        (row.getD ixX 0) (row.getD iyX 0) (row.getD izX 0) jn chs "Yposition"
        (row.getD iyX 0) i hchm (by simp) hik
      rw [filter_eq_of_pairwise_ne_fst _ hpwu i _ hmemu]
      simp
    · rw [hizX] at hiX
      injection hiX with hiX2
      subst hiX2
      have hmemu := mem_subUpdates_of_lookup sk.joint_channel_map
        (row.getD ixX 0) (row.getD iyX 0) (row.getD izX 0) jn chs "Zposition"
        (row.getD izX 0) i hchm (by simp) hik
      rw [filter_eq_of_pairwise_ne_fst _ hpwu i _ hmemu]
      simp
  · intro kind i hkind hiX
    have hgen : ∀ jn chs, alookup sk.joint_channel_map jn = some chs →
        alookup chs kind = some i → True := fun _ _ _ _ => trivial
    clear hgen
    have hchm : (X, chsX) ∈ sk.joint_channel_map := hXmem
    have hbi : i < row.length := hrowbnd row hrowmem i
      (mem_posIndices_of_lookup _ X chsX kind i hXmem hkind hiX)
    rw [applyUpdates_getD _ row i hbi]
    have hpwu : ((subUpdates sk.joint_channel_map (row.getD ixX 0) (row.getD iyX 0)
        (row.getD izX 0)).map Prod.fst).Pairwise (· ≠ ·) := by
      rw [subUpdates_map_fst]
      exact hpw2
    simp only [positionKinds, List.mem_cons, List.not_mem_nil, or_false] at hkind
    rcases hkind with rfl | rfl | rfl
    · rw [hixX] at hiX
      injection hiX with hiX2
      subst hiX2
      have hmemu := mem_subUpdates_of_lookup sk.joint_channel_map
        (row.getD ixX 0) (row.getD iyX 0) (row.getD izX 0) X chsX "Xposition"
        (row.getD ixX 0) ixX hXmem (by simp) hixX
      rw [filter_eq_of_pairwise_ne_fst _ hpwu ixX _ hmemu]
      simp
    · rw [hiyX] at hiX
      injection hiX with hiX2
      subst hiX2
      have hmemu := mem_subUpdates_of_lookup sk.joint_channel_map
        (row.getD ixX 0) (row.getD iyX 0) (row.getD izX 0) X chsX "Yposition"
        (row.getD iyX 0) iyX hXmem (by simp) hiyX
      rw [filter_eq_of_pairwise_ne_fst _ hpwu iyX _ hmemu]
      simp
    · rw [hizX] at hiX
      injection hiX with hiX2
      subst hiX2
      have hmemu := mem_subUpdates_of_lookup sk.joint_channel_map
        (row.getD ixX 0) (row.getD iyX 0) (row.getD izX 0) X chsX "Zposition"
        (row.getD izX 0) izX hXmem (by simp) hizX
      rw [filter_eq_of_pairwise_ne_fst _ hpwu izX _ hmemu]
      simp
  · intro k hk
    apply applyUpdates_get?_not_mem
    rw [subUpdates_map_fst]
    exact hk

/-- C4 counterexample: `Spine_End` is a joint present in the hierarchy and is
not the current root, yet `set_new_root "Spine_End"` raises an uncaught
key-lookup error (end-site joints have no channel-map entry) instead of
performing the claimed update. -/
theorem c4_counterexample :
    set_new_root sampleSkeleton "Spine_End" = .error "KeyError: joint" ∧
    (sampleSkeleton.hierarchy.find? (fun j => j.name = "Spine_End")).isSome = true ∧
    ¬ "Spine_End" = sampleSkeleton.root_joint := by
  decide

theorem c4_witness :
    ∃ sk', set_new_root sampleSkeleton "Spine" = .ok sk' ∧
      sk'.root_joint = "Spine" ∧
      sk'.hierarchy = sampleSkeleton.hierarchy.map (fun j =>
        if j.name = sampleSkeleton.root_joint then { j with parent := some "Spine" }
        else if j.name = "Spine" then { j with parent := none } else j) ∧
      sk'.channels = sampleSkeleton.channels ∧ sk'.order = sampleSkeleton.order ∧
      sk'.joint_channel_map = sampleSkeleton.joint_channel_map ∧
      sk'.motion.length = sampleSkeleton.motion.length ∧
      ∀ f row, sampleSkeleton.motion.get? f = some row →
        ∃ row', sk'.motion.get? f = some row' ∧ row'.length = row.length ∧
          (∀ jn chs kind i iX,
            alookup sampleSkeleton.joint_channel_map jn = some chs →
            kind ∈ positionKinds → alookup chs kind = some i →
            alookup spineChs kind = some iX →
            row'.getD i 0 = row.getD i 0 - row.getD iX 0) ∧
          (∀ kind i, kind ∈ positionKinds → alookup spineChs kind = some i →
            row'.getD i 0 = 0) ∧
          (∀ k, k ∉ posIndices sampleSkeleton.joint_channel_map →
            row'.get? k = row.get? k) :=
  c4_set_new_root (ZMod 101) 0 cOne sZero (sampleData (ZMod 101)) sampleSkeleton
    "Spine" (by decide) (by decide) (by decide) (by decide) (by decide)
    (by decide) spineChs (by decide) (by decide)
